import Mathlib

set_option maxRecDepth 8000
set_option maxHeartbeats 1000000

/- Shallow embedding of the Minesweeper board engine found in
   src/src/components/Minesweeper.tsx and src/src/types.ts.

   The board is a list of rows of cells, mirroring the Cell[][] grid.
   Math.random draws are modelled by an explicit list of (row, col)
   pairs consumed by the rejection-sampling loop of placeMines; the
   loop returns none when the draw list is exhausted before the quota
   is met.  The recursive reveal is modelled with a fuel parameter that
   bounds the recursion depth; countUnrevealed g + 1 is always enough
   fuel because every level of nesting first marks a fresh cell
   revealed.  React state reads inside an event handler see the values
   captured at render time, so revealCell's final win check tests the
   pre-call status argument, exactly as the component code does. -/

inductive Difficulty where
  | Beginner
  | Intermediate
  | Expert
deriving DecidableEq

structure GameConfig where
  rows : Nat
  cols : Nat
  mines : Nat
deriving DecidableEq

def DIFFICULTIES : Difficulty → GameConfig
  | .Beginner => { rows := 9, cols := 9, mines := 10 }
  | .Intermediate => { rows := 16, cols := 16, mines := 40 }
  | .Expert => { rows := 16, cols := 30, mines := 99 }

structure Cell where
  row : Nat
  col : Nat
  isMine : Bool
  isRevealed : Bool
  isFlagged : Bool
  neighborMines : Nat
deriving DecidableEq

inductive GameStatus where
  | idle
  | playing
  | won
  | lost
deriving DecidableEq

abbrev Board := List (List Cell)

def blankCell : Cell :=
  { row := 0, col := 0, isMine := false, isRevealed := false,
    isFlagged := false, neighborMines := 0 }

def rowsOf (g : Board) : Nat := g.length

def colsOf (g : Board) : Nat := (g.head?.getD []).length

def getCell (g : Board) (r c : Nat) : Option Cell :=
  (g.get? r).bind fun rowL => rowL.get? c

def listModify (f : α → α) : Nat → List α → List α
  | _, [] => []
  | 0, a :: as => f a :: as
  | n + 1, a :: as => a :: listModify f n as

def modifyCell (g : Board) (r c : Nat) (f : Cell → Cell) : Board :=
  listModify (fun rowL => listModify f c rowL) r g

def isMineAt (g : Board) (r c : Nat) : Bool :=
  ((getCell g r c).map Cell.isMine).getD false

def isRevealedAt (g : Board) (r c : Nat) : Bool :=
  ((getCell g r c).map Cell.isRevealed).getD false

def isFlaggedAt (g : Board) (r c : Nat) : Bool :=
  ((getCell g r c).map Cell.isFlagged).getD false

def numAt (g : Board) (r c : Nat) : Nat :=
  ((getCell g r c).map Cell.neighborMines).getD 0

/- initGrid(config): fresh rows x cols grid of default cells. -/
def initGrid (cfg : GameConfig) : Board :=
  (List.range cfg.rows).map fun r =>
    (List.range cfg.cols).map fun c =>
      { row := r, col := c, isMine := false, isRevealed := false,
        isFlagged := false, neighborMines := 0 }

/- startGame: grid := initGrid config, status := idle,
   mineCount := config.mines, timer := 0.  It reads nothing of the
   previous state except the difficulty. -/
def startGame (dif : Difficulty) : Board × GameStatus × Int × Nat :=
  (initGrid (DIFFICULTIES dif), GameStatus.idle,
    ((DIFFICULTIES dif).mines : Int), 0)

/- The exclusion test of the mine-placement loop:
   Math.abs(r - firstRow) <= 1 && Math.abs(c - firstCol) <= 1. -/
def inExclusion (r c fr fc : Nat) : Bool :=
  decide (((r : Int) - fr).natAbs ≤ 1) && decide (((c : Int) - fc).natAbs ≤ 1)

/- The while (minesPlaced < config.mines) rejection-sampling loop.
   Each draw models one Math.floor(Math.random() * dim) pair. -/
def placeMinesLoop (cfg : GameConfig) (fr fc : Nat) :
    List (Nat × Nat) → Board → Nat → Option Board
  | draws, g, placed =>
    if placed < cfg.mines then
      match draws with
      | [] => none
      | (r, c) :: rest =>
        if isMineAt g r c = false ∧ inExclusion r c fr fc = false then
          placeMinesLoop cfg fr fc rest
            (modifyCell g r c fun cell => { cell with isMine := true }) (placed + 1)
        else
          placeMinesLoop cfg fr fc rest g placed
    else
      some g

/- The dr/dc double loop of the neighbor-count pass, in source order
   (dr = -1..1 outer, dc = -1..1 inner, (0,0) included). -/
def neighborOffsets : List (Int × Int) :=
  [(-1, -1), (-1, 0), (-1, 1), (0, -1), (0, 0), (0, 1), (1, -1), (1, 0), (1, 1)]

/- count of in-bounds mine neighbors per the source's bounds checks
   (nr >= 0 && nr < config.rows && nc >= 0 && nc < config.cols && isMine). -/
def countAdj (cfg : GameConfig) (g : Board) (r c : Nat) : Nat :=
  (neighborOffsets.filter fun d =>
    decide (0 ≤ (r : Int) + d.1 ∧ (r : Int) + d.1 < (cfg.rows : Int) ∧
      0 ≤ (c : Int) + d.2 ∧ (c : Int) + d.2 < (cfg.cols : Int) ∧
      isMineAt g ((r : Int) + d.1).toNat ((c : Int) + d.2).toNat = true)).length

/- The second pass of placeMines: for every non-mine cell set
   neighborMines to the count of adjacent mines; mine cells are left
   untouched. -/
def computeNumbers (cfg : GameConfig) (g : Board) : Board :=
  (List.range cfg.rows).map fun r =>
    (List.range cfg.cols).map fun c =>
      let cell := (getCell g r c).getD blankCell
      if cell.isMine then cell
      else { cell with neighborMines := countAdj cfg g r c }

def placeMines (cfg : GameConfig) (draws : List (Nat × Nat)) (g : Board)
    (fr fc : Nat) : Option Board :=
  (placeMinesLoop cfg fr fc draws g 0).map fun g1 => computeNumbers cfg g1

/- Loss disclosure: newGrid.forEach(r => r.forEach(cell =>
   if (cell.isMine) cell.isRevealed = true)). -/
def revealAllMines (g : Board) : Board :=
  g.map fun rowL => rowL.map fun cell =>
    if cell.isMine then { cell with isRevealed := true } else cell

def boardCount (pc : Cell → Bool) (g : Board) : Nat :=
  (g.map fun rowL => rowL.countP pc).sum

def countMinesB (g : Board) : Nat := boardCount (fun cell => cell.isMine) g

def countUnrevealed (g : Board) : Nat :=
  boardCount (fun cell => !cell.isRevealed) g

/- The inner recursive reveal of revealCell.  The Bool result records
   whether setStatus('lost') was called (a mine was revealed).  The
   fuel only bounds the recursion depth; it is always instantiated
   with countUnrevealed g + 1, which suffices because every nested
   call first marks a previously unrevealed cell. -/
def revealFuel : Nat → Board → Int → Int → Board × Bool
  | 0, g, _, _ => (g, false)
  | fuel + 1, g, row, col =>
    if row < 0 ∨ (rowsOf g : Int) ≤ row ∨ col < 0 ∨ (colsOf g : Int) ≤ col ∨
        isRevealedAt g row.toNat col.toNat = true ∨
        isFlaggedAt g row.toNat col.toNat = true then
      (g, false)
    else
      let g1 := modifyCell g row.toNat col.toNat fun cell =>
        { cell with isRevealed := true }
      if isMineAt g1 row.toNat col.toNat = true then
        (revealAllMines g1, true)
      else if numAt g1 row.toNat col.toNat = 0 then
        neighborOffsets.foldl
          (fun acc d =>
            let res := revealFuel fuel acc.1 (row + d.1) (col + d.2)
            (res.1, acc.2 || res.2))
          (g1, false)
      else
        (g1, false)

def reveal (g : Board) (row col : Int) : Board × Bool :=
  revealFuel (countUnrevealed g + 1) g row col

/- revealCell(r, c).  status, grid and mineCount reads inside the
   handler see the render-time values, so the final win check compares
   the pre-call status against 'lost' even when this very call has
   just hit a mine; the last setStatus call wins. -/
def revealCell (dif : Difficulty) (draws : List (Nat × Nat)) (g : Board)
    (status : GameStatus) (r c : Nat) : Option (Board × GameStatus) :=
  if status = .won ∨ status = .lost ∨ isRevealedAt g r c = true ∨
      isFlaggedAt g r c = true then
    some (g, status)
  else
    (if status = .idle then placeMines (DIFFICULTIES dif) draws g r c
     else some g).bind fun currentGrid =>
      let st1 : GameStatus := if status = .idle then .playing else status
      let res := reveal currentGrid (r : Int) (c : Int)
      let st2 : GameStatus := if res.2 = true then .lost else st1
      if status ≠ .lost then
        if countUnrevealed res.1 = (DIFFICULTIES dif).mines then
          some (res.1, .won)
        else
          some (res.1, st2)
      else
        some (res.1, st2)

/- toggleFlag: no-op on won/lost or a revealed cell, else flip the
   target's isFlagged and adjust the display mine counter. -/
def toggleFlag (g : Board) (status : GameStatus) (mc : Int) (r c : Nat) :
    Board × Int :=
  if status = .won ∨ status = .lost ∨ isRevealedAt g r c = true then
    (g, mc)
  else
    let isF := !isFlaggedAt g r c
    (modifyCell g r c fun cell => { cell with isFlagged := isF },
      if isF = true then mc - 1 else mc + 1)

/- Predicates used by the theorems. -/

def Rect (g : Board) : Prop :=
  ∀ i, i < g.length → ((g.get? i).getD []).length = colsOf g

instance : DecidablePred Rect := fun g =>
  Nat.decidableBallLT g.length fun i _ => ((g.get? i).getD []).length = colsOf g

def MineFree (g : Board) : Prop :=
  ∀ r, r < rowsOf g → ∀ c, c < colsOf g → isMineAt g r c = false

instance : DecidablePred MineFree := fun g =>
  Nat.decidableBallLT (rowsOf g) fun r _ =>
    ∀ c, c < colsOf g → isMineAt g r c = false

def AllUnrevealed (g : Board) : Prop :=
  ∀ r, r < rowsOf g → ∀ c, c < colsOf g → isRevealedAt g r c = false

instance : DecidablePred AllUnrevealed := fun g =>
  Nat.decidableBallLT (rowsOf g) fun r _ =>
    ∀ c, c < colsOf g → isRevealedAt g r c = false

/- count of in-bounds mine neighbors relative to the board's own
   dimensions (used to state that neighborMines data is consistent). -/
def adjCountG (g : Board) (r c : Nat) : Nat :=
  (neighborOffsets.filter fun d =>
    decide (0 ≤ (r : Int) + d.1 ∧ (r : Int) + d.1 < (rowsOf g : Int) ∧
      0 ≤ (c : Int) + d.2 ∧ (c : Int) + d.2 < (colsOf g : Int) ∧
      isMineAt g ((r : Int) + d.1).toNat ((c : Int) + d.2).toNat = true)).length

/- GoodB g: every non-mine cell carries the true adjacent-mine count
   (what placeMines establishes). -/
def GoodB (g : Board) : Prop :=
  ∀ r, r < rowsOf g → ∀ c, c < colsOf g →
    isMineAt g r c = false → numAt g r c = adjCountG g r c

instance : DecidablePred GoodB := fun g =>
  Nat.decidableBallLT (rowsOf g) fun r _ =>
    ∀ c, c < colsOf g → isMineAt g r c = false → numAt g r c = adjCountG g r c

def adjacentN (p q : Nat × Nat) : Prop :=
  ((p.1 : Int) - q.1).natAbs ≤ 1 ∧ ((p.2 : Int) - q.2).natAbs ≤ 1

instance : ∀ p q, Decidable (adjacentN p q) := fun _ _ => instDecidableAnd

def okCell (g : Board) (p : Nat × Nat) : Prop :=
  p.1 < rowsOf g ∧ p.2 < colsOf g ∧
    isRevealedAt g p.1 p.2 = false ∧ isFlaggedAt g p.1 p.2 = false

instance : ∀ g p, Decidable (okCell g p) := fun _ _ => instDecidableAnd

def zeroCell (g : Board) (p : Nat × Nat) : Prop :=
  isMineAt g p.1 p.2 = false ∧ numAt g p.1 p.2 = 0

instance : ∀ g p, Decidable (zeroCell g p) := fun _ _ => instDecidableAnd

/- Cells the flood fill actually reaches from s: chains of adjacent,
   in-bounds, unrevealed, unflagged cells that pass only through
   zero-count cells. -/
inductive Reach (g : Board) (s : Nat × Nat) : Nat × Nat → Prop
  | base : okCell g s → Reach g s s
  | step : ∀ q q', Reach g s q → zeroCell g q → adjacentN q q' →
      okCell g q' → Reach g s q'

/- The connected zero-region of the claim's wording: chains of
   adjacent, in-bounds, unflagged zero-count cells, regardless of
   their revealed state. -/
inductive ZChain (g : Board) (s : Nat × Nat) : Nat × Nat → Prop
  | base : s.1 < rowsOf g → s.2 < colsOf g → zeroCell g s →
      isFlaggedAt g s.1 s.2 = false → ZChain g s s
  | step : ∀ q q', ZChain g s q → adjacentN q q' → q'.1 < rowsOf g →
      q'.2 < colsOf g → zeroCell g q' → isFlaggedAt g q'.1 q'.2 = false →
      ZChain g s q'

/- target of a reveal call is non-mine whenever it is in bounds. -/
def MineSafe (g : Board) (row col : Int) : Prop :=
  0 ≤ row → row < (rowsOf g : Int) → 0 ≤ col → col < (colsOf g : Int) →
    isMineAt g row.toNat col.toNat = false

/- book-keeping relation between a grid and the grid a cascade turns
   it into: same shape, and each cell either unchanged or merely
   switched to revealed. -/
def FrameOK (g g' : Board) : Prop :=
  g'.map List.length = g.map List.length ∧
  ∀ r c, getCell g' r c = getCell g r c ∨
    ∃ cell, getCell g r c = some cell ∧ cell.isRevealed = false ∧
      getCell g' r c = some { cell with isRevealed := true }

structure RSpec (g : Board) (row col : Int) (out : Board × Bool) : Prop where
  frame : FrameOK g out.1
  lostFalse : out.2 = false
  unrev : countUnrevealed out.1 ≤ countUnrevealed g
  sound : ∀ p : Nat × Nat, isRevealedAt out.1 p.1 p.2 = true →
    isRevealedAt g p.1 p.2 = true ∨ Reach g (row.toNat, col.toNat) p
  closedNew : ∀ p : Nat × Nat, isRevealedAt out.1 p.1 p.2 = true →
    isRevealedAt g p.1 p.2 = false → zeroCell g p →
    ∀ q : Nat × Nat, adjacentN p q → q.1 < rowsOf g → q.2 < colsOf g →
      isFlaggedAt g q.1 q.2 = false → isRevealedAt out.1 q.1 q.2 = true
  progress : 0 ≤ row → 0 ≤ col → okCell g (row.toNat, col.toNat) →
    isRevealedAt out.1 row.toNat col.toNat = true

structure SeqSpec (g : Board) (row col : Int) (ds : List (Int × Int))
    (b : Bool) (out : Board × Bool) : Prop where
  frame : FrameOK g out.1
  lostEq : out.2 = b
  unrev : countUnrevealed out.1 ≤ countUnrevealed g
  sound : ∀ p : Nat × Nat, isRevealedAt out.1 p.1 p.2 = true →
    isRevealedAt g p.1 p.2 = true ∨
      ∃ d ∈ ds, Reach g ((row + d.1).toNat, (col + d.2).toNat) p
  closedNew : ∀ p : Nat × Nat, isRevealedAt out.1 p.1 p.2 = true →
    isRevealedAt g p.1 p.2 = false → zeroCell g p →
    ∀ q : Nat × Nat, adjacentN p q → q.1 < rowsOf g → q.2 < colsOf g →
      isFlaggedAt g q.1 q.2 = false → isRevealedAt out.1 q.1 q.2 = true
  progress : ∀ d ∈ ds, 0 ≤ row + d.1 → row + d.1 < (rowsOf g : Int) →
    0 ≤ col + d.2 → col + d.2 < (colsOf g : Int) →
    isFlaggedAt g (row + d.1).toNat (col + d.2).toNat = false →
    isRevealedAt out.1 (row + d.1).toNat (col + d.2).toNat = true

/- The spec-side Moore neighborhood: the up-to-8 proper neighbors,
   clipped at the board edges. -/
def mooreOffsets : List (Int × Int) :=
  [(-1, -1), (-1, 0), (-1, 1), (0, -1), (0, 1), (1, -1), (1, 0), (1, 1)]

def specNeighborCount (cfg : GameConfig) (g : Board) (r c : Nat) : Nat :=
  (mooreOffsets.filter fun d =>
    decide (0 ≤ (r : Int) + d.1 ∧ (r : Int) + d.1 < (cfg.rows : Int) ∧
      0 ≤ (c : Int) + d.2 ∧ (c : Int) + d.2 < (cfg.cols : Int) ∧
      isMineAt g ((r : Int) + d.1).toNat ((c : Int) + d.2).toNat = true)).length

/- Concrete boards used by witnesses and counterexamples. -/

def mkBoard (cfg : GameConfig) (mines revs flags : List (Nat × Nat)) : Board :=
  computeNumbers cfg ((List.range cfg.rows).map fun r =>
    (List.range cfg.cols).map fun c =>
      { row := r, col := c, isMine := mines.contains (r, c),
        isRevealed := revs.contains (r, c),
        isFlagged := flags.contains (r, c), neighborMines := 0 })

def drawsW : List (Nat × Nat) :=
  [(2, 0), (2, 1), (2, 2), (2, 3), (2, 4), (2, 5), (2, 6), (2, 7), (2, 8), (3, 0)]

def pmW : Board :=
  (placeMines (DIFFICULTIES .Beginner) drawsW
    (initGrid (DIFFICULTIES .Beginner)) 0 0).getD []

/- C4 counterexample board: zero corridor (0,0)..(0,3); (0,2) and the
   numbered cells (1,1),(1,2),(1,3) were revealed earlier (while (0,1)
   and (0,3) were flagged, flags since removed). -/
def mines4 : List (Nat × Nat) :=
  [(2, 0), (2, 1), (2, 2), (2, 3), (2, 4), (1, 5), (8, 8), (8, 7), (7, 8), (6, 6)]

def exB4 : Board :=
  mkBoard (DIFFICULTIES .Beginner) mines4 [(0, 2), (1, 1), (1, 2), (1, 3)] []

/- C9 counterexample: idle grid with a flag at (0,1); draws place ten
   mines away from the (0,0) exclusion zone. -/
def draws9 : List (Nat × Nat) :=
  [(0, 3), (1, 3), (2, 3), (3, 3), (3, 0), (3, 1), (3, 2), (8, 8), (8, 6), (6, 8)]

def exG9 : Board := mkBoard (DIFFICULTIES .Beginner) [] [] [(0, 1)]

/- C3 failing input: a playing-state Beginner board with no zero
   cells, 61 of the 71 non-mine cells already revealed; clicking the
   mine at (1,1) leaves exactly 10 cells unrevealed. -/
def mines3 : List (Nat × Nat) :=
  [(1, 1), (1, 4), (1, 7), (4, 1), (4, 4), (4, 7), (7, 1), (7, 4), (7, 7), (3, 3)]

def keep3 : List (Nat × Nat) :=
  [(8, 0), (8, 1), (8, 2), (8, 3), (8, 4), (8, 5), (8, 6), (8, 7), (8, 8), (0, 8)]

def revs3 : List (Nat × Nat) :=
  ((List.range 9).map fun r => (List.range 9).map fun c => (r, c)).flatten.filter
    fun p => !(mines3.contains p) && !(keep3.contains p)

def exB3 : Board := mkBoard (DIFFICULTIES .Beginner) mines3 revs3 []

/- Theorems.  First the list-surgery and frame lemmas, then the
   flood-fill induction, then the mine-placement invariants, and
   finally the claim theorems. -/

theorem listModify_length (f : α → α) : ∀ (n : Nat) (l : List α),
    (listModify f n l).length = l.length := by
  intro n l
  induction l generalizing n with
  | nil => cases n <;> rfl
  | cons a as ih =>
    cases n with
    | zero => rfl
    | succ n =>
      show (listModify f n as).length + 1 = as.length + 1
      rw [ih]

theorem listModify_get?_self (f : α → α) : ∀ (n : Nat) (l : List α),
    (listModify f n l).get? n = (l.get? n).map f := by
  intro n l
  induction l generalizing n with
  | nil => cases n <;> rfl
  | cons a as ih =>
    cases n with
    | zero => rfl
    | succ n =>
      show (listModify f n as).get? n = (as.get? n).map f
      exact ih n

theorem listModify_get?_ne (f : α → α) : ∀ (n m : Nat) (l : List α), m ≠ n →
    (listModify f n l).get? m = l.get? m := by
  intro n m l
  induction l generalizing n m with
  | nil => intro _; cases n <;> rfl
  | cons a as ih =>
    intro hne
    cases n with
    | zero =>
      cases m with
      | zero => exact absurd rfl hne
      | succ m => rfl
    | succ n =>
      cases m with
      | zero => rfl
      | succ m =>
        show (listModify f n as).get? m = as.get? m
        exact ih n m (by omega)

theorem getCell_modifyCell_self (g : Board) (r c : Nat) (f : Cell → Cell) :
    getCell (modifyCell g r c f) r c = (getCell g r c).map f := by
  unfold getCell modifyCell
  rw [listModify_get?_self]
  cases hg : g.get? r with
  | none => rfl
  | some rowL =>
    show (listModify f c rowL).get? c = (rowL.get? c).map f
    exact listModify_get?_self f c rowL

theorem getCell_modifyCell_ne (g : Board) (r c : Nat) (f : Cell → Cell)
    (r' c' : Nat) (h : ¬(r' = r ∧ c' = c)) :
    getCell (modifyCell g r c f) r' c' = getCell g r' c' := by
  unfold getCell modifyCell
  by_cases hr : r' = r
  · subst hr
    rw [listModify_get?_self]
    cases hg : g.get? r' with
    | none => rfl
    | some rowL =>
      have hc : c' ≠ c := fun hc => h ⟨rfl, hc⟩
      show (listModify f c rowL).get? c' = rowL.get? c'
      exact listModify_get?_ne f c c' rowL hc
  · rw [listModify_get?_ne _ _ _ _ hr]

theorem map_length_listModify (h : List Cell → List Cell)
    (hh : ∀ x, (h x).length = x.length) : ∀ (n : Nat) (l : Board),
    (listModify h n l).map List.length = l.map List.length := by
  intro n l
  induction l generalizing n with
  | nil => cases n <;> rfl
  | cons a as ih =>
    cases n with
    | zero => simp [listModify, hh]
    | succ n => simp [listModify, ih]

theorem map_length_modifyCell (g : Board) (r c : Nat) (f : Cell → Cell) :
    (modifyCell g r c f).map List.length = g.map List.length :=
  map_length_listModify _ (fun x => listModify_length f c x) r g

theorem get?_map_length {g g' : Board}
    (h : g'.map List.length = g.map List.length) (i : Nat) :
    (g'.get? i).map List.length = (g.get? i).map List.length := by
  rw [← List.get?_map, ← List.get?_map, h]

theorem rowsOf_eq_of_map_length {g g' : Board}
    (h : g'.map List.length = g.map List.length) : rowsOf g' = rowsOf g := by
  have := congrArg List.length h
  simpa [rowsOf] using this

theorem colsOf_eq_of_map_length {g g' : Board}
    (h : g'.map List.length = g.map List.length) : colsOf g' = colsOf g := by
  have h0 := get?_map_length h 0
  cases g' with
  | nil =>
    cases g with
    | nil => rfl
    | cons b bs => simp at h0
  | cons a as =>
    cases g with
    | nil => simp at h0
    | cons b bs =>
      simp [colsOf] at h0 ⊢
      exact h0

theorem rect_of_map_length {g g' : Board}
    (h : g'.map List.length = g.map List.length) (hr : Rect g) : Rect g' := by
  intro i hi
  have hrows : g'.length = g.length := rowsOf_eq_of_map_length h
  have hi' : i < g.length := by omega
  have hcols : colsOf g' = colsOf g := colsOf_eq_of_map_length h
  cases hg' : g'.get? i with
  | none =>
    have := List.get?_eq_none.mp hg'
    omega
  | some rowL' =>
    cases hgq : g.get? i with
    | none =>
      have := List.get?_eq_none.mp hgq
      omega
    | some rowL =>
      have hg2 := get?_map_length h i
      rw [hg', hgq] at hg2
      simp at hg2
      have h1 := hr i hi'
      rw [hgq] at h1
      simp at h1
      simp [hcols, hg2, h1]

theorem boardCount_cons (pc : Cell → Bool) (rowL : List Cell) (rows : Board) :
    boardCount pc (rowL :: rows) = rowL.countP pc + boardCount pc rows := by
  simp [boardCount]

theorem countP_listModify (p : α → Bool) (f : α → α) :
    ∀ (n : Nat) (l : List α) (a : α), l.get? n = some a →
    (listModify f n l).countP p + (if p a then 1 else 0) =
      l.countP p + (if p (f a) then 1 else 0) := by
  intro n l
  induction l generalizing n with
  | nil => intro a h; cases n <;> simp at h
  | cons b bs ih =>
    intro a h
    cases n with
    | zero =>
      have hb : b = a := by simpa using h
      subst hb
      show (f b :: bs).countP p + _ = (b :: bs).countP p + _
      rw [List.countP_cons, List.countP_cons]
      split_ifs <;> omega
    | succ n =>
      have h' : bs.get? n = some a := h
      have H := ih n a h'
      show (b :: listModify f n bs).countP p + _ = (b :: bs).countP p + _
      rw [List.countP_cons, List.countP_cons]
      split_ifs at H ⊢ <;> omega

theorem boardCount_modifyCell (pc : Cell → Bool) :
    ∀ (g : Board) (r c : Nat) (f : Cell → Cell) (cell : Cell),
    getCell g r c = some cell →
    boardCount pc (modifyCell g r c f) + (if pc cell then 1 else 0) =
      boardCount pc g + (if pc (f cell) then 1 else 0) := by
  intro g
  induction g with
  | nil =>
    intro r c f cell h
    unfold getCell at h
    cases r <;> simp at h
  | cons rowL rows ih =>
    intro r c f cell h
    cases r with
    | zero =>
      have h' : rowL.get? c = some cell := h
      show boardCount pc (listModify f c rowL :: rows) + _ = _
      rw [boardCount_cons, boardCount_cons]
      have H := countP_listModify pc f c rowL cell h'
      split_ifs at H ⊢ <;> omega
    | succ r =>
      have h' : getCell rows r c = some cell := h
      have H := ih r c f cell h'
      show boardCount pc (rowL :: modifyCell rows r c f) + _ = _
      rw [boardCount_cons, boardCount_cons]
      split_ifs at H ⊢ <;> omega

theorem countUnrevealed_mark (g : Board) (r c : Nat) (cell : Cell)
    (h : getCell g r c = some cell) (hu : cell.isRevealed = false) :
    countUnrevealed (modifyCell g r c fun x => { x with isRevealed := true }) + 1 =
      countUnrevealed g := by
  have H := boardCount_modifyCell (fun x => !x.isRevealed) g r c
    (fun x => { x with isRevealed := true }) cell h
  simp [hu] at H
  unfold countUnrevealed
  omega

theorem countP_congr_get? (p q : α → Bool) : ∀ (l1 l2 : List α),
    l1.length = l2.length →
    (∀ i a b, l1.get? i = some a → l2.get? i = some b → p a = q b) →
    l1.countP p = l2.countP q := by
  intro l1
  induction l1 with
  | nil =>
    intro l2 hlen _
    cases l2 with
    | nil => rfl
    | cons b bs => simp at hlen
  | cons a as ih =>
    intro l2 hlen hpt
    cases l2 with
    | nil => simp at hlen
    | cons b bs =>
      rw [List.countP_cons, List.countP_cons]
      have h0 : p a = q b := hpt 0 a b rfl rfl
      have ht : as.countP p = bs.countP q :=
        ih bs (by simpa using hlen) (fun i x y hx hy => hpt (i + 1) x y hx hy)
      rw [h0, ht]

theorem boardCount_congr (pc qc : Cell → Bool) : ∀ (g g' : Board),
    g'.map List.length = g.map List.length →
    (∀ r c a b, getCell g r c = some a → getCell g' r c = some b → pc a = qc b) →
    boardCount qc g' = boardCount pc g := by
  intro g
  induction g with
  | nil =>
    intro g' hlen _
    cases g' with
    | nil => rfl
    | cons b bs => simp at hlen
  | cons rowL rows ih =>
    intro g' hlen hpt
    cases g' with
    | nil => simp at hlen
    | cons rowL' rows' =>
      rw [boardCount_cons, boardCount_cons]
      have hl : rowL'.length = rowL.length ∧
          rows'.map List.length = rows.map List.length := by simpa using hlen
      have hrow : rowL.countP pc = rowL'.countP qc :=
        countP_congr_get? pc qc rowL rowL' hl.1.symm
          (fun i a b ha hb => hpt 0 i a b ha hb)
      have htail := ih rows' hl.2 (fun r c a b ha hb => hpt (r + 1) c a b ha hb)
      rw [hrow, htail]

theorem frameOK_refl (g : Board) : FrameOK g g := ⟨rfl, fun _ _ => Or.inl rfl⟩

theorem frameOK_trans {g g1 g2 : Board} (h1 : FrameOK g g1) (h2 : FrameOK g1 g2) :
    FrameOK g g2 := by
  refine ⟨h2.1.trans h1.1, fun r c => ?_⟩
  rcases h2.2 r c with he | ⟨cell1, hc1, hu1, hc1'⟩
  · rcases h1.2 r c with he' | ⟨cell, hc, hu, hc'⟩
    · exact Or.inl (he.trans he')
    · exact Or.inr ⟨cell, hc, hu, he.trans hc'⟩
  · rcases h1.2 r c with he' | ⟨cell, hc, hu, hc'⟩
    · exact Or.inr ⟨cell1, he'.symm.trans hc1, hu1, hc1'⟩
    · rw [hc'] at hc1
      have : cell1.isRevealed = true := by
        have := Option.some.inj hc1
        rw [← this]
      rw [this] at hu1
      exact absurd hu1 (by simp)

theorem FrameOK.rowsEq {g g' : Board} (h : FrameOK g g') : rowsOf g' = rowsOf g :=
  rowsOf_eq_of_map_length h.1

theorem FrameOK.colsEq {g g' : Board} (h : FrameOK g g') : colsOf g' = colsOf g :=
  colsOf_eq_of_map_length h.1

theorem FrameOK.rectOf {g g' : Board} (h : FrameOK g g') (hr : Rect g) : Rect g' :=
  rect_of_map_length h.1 hr

theorem FrameOK.mineEq {g g' : Board} (h : FrameOK g g') (r c : Nat) :
    isMineAt g' r c = isMineAt g r c := by
  rcases h.2 r c with he | ⟨cell, hc, hu, hc'⟩
  · simp [isMineAt, he]
  · simp [isMineAt, hc, hc']

theorem FrameOK.numEq {g g' : Board} (h : FrameOK g g') (r c : Nat) :
    numAt g' r c = numAt g r c := by
  rcases h.2 r c with he | ⟨cell, hc, hu, hc'⟩
  · simp [numAt, he]
  · simp [numAt, hc, hc']

theorem FrameOK.flagEq {g g' : Board} (h : FrameOK g g') (r c : Nat) :
    isFlaggedAt g' r c = isFlaggedAt g r c := by
  rcases h.2 r c with he | ⟨cell, hc, hu, hc'⟩
  · simp [isFlaggedAt, he]
  · simp [isFlaggedAt, hc, hc']

theorem FrameOK.revMono {g g' : Board} (h : FrameOK g g') (r c : Nat)
    (hr : isRevealedAt g r c = true) : isRevealedAt g' r c = true := by
  rcases h.2 r c with he | ⟨cell, hc, hu, hc'⟩
  · unfold isRevealedAt at *
    rw [he]
    exact hr
  · simp [isRevealedAt, hc']

theorem FrameOK.revBack {g g' : Board} (h : FrameOK g g') (r c : Nat)
    (hr : isRevealedAt g' r c = false) : isRevealedAt g r c = false := by
  cases hx : isRevealedAt g r c
  · rfl
  · rw [h.revMono r c hx] at hr
    exact absurd hr (by simp)

theorem FrameOK.adjEq {g g' : Board} (h : FrameOK g g') (r c : Nat) :
    adjCountG g' r c = adjCountG g r c := by
  unfold adjCountG
  simp only [h.rowsEq, h.colsEq, h.mineEq]

theorem FrameOK.goodBOf {g g' : Board} (h : FrameOK g g') (hg : GoodB g) :
    GoodB g' := by
  intro r hr c hc hm
  rw [h.numEq, h.adjEq]
  exact hg r (by rw [h.rowsEq] at hr; exact hr) c
    (by rw [h.colsEq] at hc; exact hc) (by rw [h.mineEq] at hm; exact hm)

theorem FrameOK.mineSafeOf {g g' : Board} {row col : Int} (h : FrameOK g g')
    (hs : MineSafe g row col) : MineSafe g' row col := by
  intro h1 h2 h3 h4
  rw [h.mineEq]
  exact hs h1 (by rw [h.rowsEq] at h2; exact h2) h3
    (by rw [h.colsEq] at h4; exact h4)

theorem FrameOK.okOf {g g' : Board} (h : FrameOK g g') {p : Nat × Nat}
    (hok : okCell g' p) : okCell g p := by
  obtain ⟨h1, h2, h3, h4⟩ := hok
  exact ⟨by rw [h.rowsEq] at h1; exact h1, by rw [h.colsEq] at h2; exact h2,
    h.revBack p.1 p.2 h3, by rw [h.flagEq] at h4; exact h4⟩

theorem FrameOK.zeroOf {g g' : Board} (h : FrameOK g g') {p : Nat × Nat}
    (hz : zeroCell g' p) : zeroCell g p :=
  ⟨(h.mineEq p.1 p.2).symm.trans hz.1, (h.numEq p.1 p.2).symm.trans hz.2⟩

theorem FrameOK.reachOf {g g' : Board} (h : FrameOK g g') {s p : Nat × Nat}
    (hr : Reach g' s p) : Reach g s p := by
  induction hr with
  | base hok => exact Reach.base (h.okOf hok)
  | step q q' _ hz hadj hok ih => exact Reach.step q q' ih (h.zeroOf hz) hadj (h.okOf hok)

theorem Reach.startOk {g : Board} {s p : Nat × Nat} (h : Reach g s p) :
    okCell g s := by
  induction h with
  | base hok => exact hok
  | step _ _ _ _ _ _ ih => exact ih

theorem Reach.chain {g : Board} {a b c : Nat × Nat} (h1 : Reach g a b)
    (h2 : Reach g b c) : Reach g a c := by
  induction h2 with
  | base _ => exact h1
  | step q q' _ hz hadj hok ih => exact Reach.step q q' ih hz hadj hok

theorem adjacent_to_offset {r c : Nat} {q : Nat × Nat} (h : adjacentN (r, c) q) :
    ∃ d ∈ neighborOffsets, (r : Int) + d.1 = (q.1 : Int) ∧
      (c : Int) + d.2 = (q.2 : Int) := by
  have h1 : ((r : Int) - q.1).natAbs ≤ 1 := h.1
  have h2 : ((c : Int) - q.2).natAbs ≤ 1 := h.2
  refine ⟨((q.1 : Int) - r, (q.2 : Int) - c), ?_, by omega, by omega⟩
  have e1 : (q.1 : Int) - r = -1 ∨ (q.1 : Int) - r = 0 ∨ (q.1 : Int) - r = 1 := by
    omega
  have e2 : (q.2 : Int) - c = -1 ∨ (q.2 : Int) - c = 0 ∨ (q.2 : Int) - c = 1 := by
    omega
  rcases e1 with e | e | e <;> rcases e2 with e' | e' | e' <;>
    rw [e, e'] <;> simp [neighborOffsets]

theorem offset_adjacent {row col : Int} (hrow : 0 ≤ row) (hcol : 0 ≤ col)
    {d : Int × Int} (hd : d ∈ neighborOffsets) :
    adjacentN (row.toNat, col.toNat) ((row + d.1).toNat, (col + d.2).toNat) := by
  simp only [neighborOffsets, List.mem_cons, List.not_mem_nil, or_false] at hd
  rcases hd with h | h | h | h | h | h | h | h | h <;> subst h <;>
    exact ⟨by omega, by omega⟩

theorem GoodB.noMineAdj {g : Board} (hg : GoodB g) {r c : Nat}
    (hr : r < rowsOf g) (hc : c < colsOf g) (hm : isMineAt g r c = false)
    (h0 : numAt g r c = 0) :
    ∀ q : Nat × Nat, adjacentN (r, c) q → q.1 < rowsOf g → q.2 < colsOf g →
      isMineAt g q.1 q.2 = false := by
  intro q hadj hq1 hq2
  have hcount : adjCountG g r c = 0 := by rw [← hg r hr c hc hm]; exact h0
  unfold adjCountG at hcount
  rw [List.length_eq_zero] at hcount
  have hall := List.filter_eq_nil.mp hcount
  obtain ⟨d, hd, e1, e2⟩ := adjacent_to_offset hadj
  by_contra hmm
  have hmine : isMineAt g q.1 q.2 = true := by
    cases hx : isMineAt g q.1 q.2
    · exact absurd hx hmm
    · rfl
  apply hall d hd
  simp only [decide_eq_true_eq]
  have t1 : ((r : Int) + d.1).toNat = q.1 := by omega
  have t2 : ((c : Int) + d.2).toNat = q.2 := by omega
  refine ⟨by omega, by omega, by omega, by omega, ?_⟩
  rw [t1, t2]
  exact hmine

theorem bool_eq_false_of_ne {b : Bool} (h : ¬b = true) : b = false := by
  cases b
  · rfl
  · exact absurd rfl h

theorem getCell_isSome {g : Board} (hrect : Rect g) {r c : Nat}
    (hr : r < rowsOf g) (hc : c < colsOf g) :
    ∃ cell, getCell g r c = some cell := by
  unfold getCell
  cases hg : g.get? r with
  | none =>
    have := List.get?_eq_none.mp hg
    exact absurd hr (by unfold rowsOf; omega)
  | some rowL =>
    have hlen := hrect r hr
    rw [hg] at hlen
    simp at hlen
    cases hcL : rowL.get? c with
    | none =>
      have := List.get?_eq_none.mp hcL
      omega
    | some cell =>
      refine ⟨cell, ?_⟩
      exact hcL

theorem frameOK_mark {g : Board} {r c : Nat} {cell : Cell}
    (h : getCell g r c = some cell) (hu : cell.isRevealed = false) :
    FrameOK g (modifyCell g r c fun x => { x with isRevealed := true }) := by
  refine ⟨map_length_modifyCell g r c _, fun r' c' => ?_⟩
  by_cases hrc : r' = r ∧ c' = c
  · obtain ⟨rfl, rfl⟩ := hrc
    right
    exact ⟨cell, h, hu, by rw [getCell_modifyCell_self, h]; rfl⟩
  · left
    exact getCell_modifyCell_ne g r c _ r' c' hrc

theorem mark_rev_new {g : Board} {r c : Nat} {p : Nat × Nat}
    (hp : isRevealedAt (modifyCell g r c fun x => { x with isRevealed := true })
      p.1 p.2 = true)
    (hpg : isRevealedAt g p.1 p.2 = false) : p = (r, c) := by
  rcases p with ⟨p1, p2⟩
  by_contra hne
  have hne' : ¬(p1 = r ∧ p2 = c) := fun hcc => hne (by rw [hcc.1, hcc.2])
  have heq := getCell_modifyCell_ne g r c
    (fun x => { x with isRevealed := true }) p1 p2 hne'
  unfold isRevealedAt at hp hpg
  rw [heq] at hp
  rw [hp] at hpg
  exact absurd hpg (by simp)

theorem revealFuel_succ (fuel : Nat) (g : Board) (row col : Int) :
    revealFuel (fuel + 1) g row col =
      if row < 0 ∨ (rowsOf g : Int) ≤ row ∨ col < 0 ∨ (colsOf g : Int) ≤ col ∨
          isRevealedAt g row.toNat col.toNat = true ∨
          isFlaggedAt g row.toNat col.toNat = true then
        (g, false)
      else if isMineAt (modifyCell g row.toNat col.toNat fun cell =>
          { cell with isRevealed := true }) row.toNat col.toNat = true then
        (revealAllMines (modifyCell g row.toNat col.toNat fun cell =>
          { cell with isRevealed := true }), true)
      else if numAt (modifyCell g row.toNat col.toNat fun cell =>
          { cell with isRevealed := true }) row.toNat col.toNat = 0 then
        neighborOffsets.foldl
          (fun acc d =>
            let res := revealFuel fuel acc.1 (row + d.1) (col + d.2)
            (res.1, acc.2 || res.2))
          (modifyCell g row.toNat col.toNat fun cell =>
            { cell with isRevealed := true }, false)
      else
        (modifyCell g row.toNat col.toNat fun cell =>
          { cell with isRevealed := true }, false) := rfl

theorem revealSeq_spec (fuel : Nat) (row col : Int)
    (ih : ∀ (g : Board) (r c : Int), GoodB g → Rect g →
      countUnrevealed g < fuel → MineSafe g r c →
      RSpec g r c (revealFuel fuel g r c)) :
    ∀ (ds : List (Int × Int)) (g : Board) (b : Bool),
      GoodB g → Rect g → countUnrevealed g < fuel →
      (∀ d ∈ ds, MineSafe g (row + d.1) (col + d.2)) →
      SeqSpec g row col ds b
        (ds.foldl (fun acc d =>
          let res := revealFuel fuel acc.1 (row + d.1) (col + d.2)
          (res.1, acc.2 || res.2)) (g, b)) := by
  intro ds
  induction ds with
  | nil =>
    intro g b hgood hrect hfuel hsafe
    rw [List.foldl_nil]
    refine { frame := frameOK_refl g, lostEq := rfl, unrev := le_refl _,
             sound := fun p hp => Or.inl hp, closedNew := ?_, progress := ?_ }
    · intro p hp hnp
      rw [hnp] at hp
      simp at hp
    · intro d hd
      simp at hd
  | cons d0 ds ihl =>
    intro g b hgood hrect hfuel hsafe
    rw [List.foldl_cons]
    have hsafe0 : MineSafe g (row + d0.1) (col + d0.2) := hsafe d0 (by simp)
    have H0 := ih g (row + d0.1) (col + d0.2) hgood hrect hfuel hsafe0
    show SeqSpec g row col (d0 :: ds) b
      (List.foldl (fun acc d =>
          let res := revealFuel fuel acc.1 (row + d.1) (col + d.2)
          (res.1, acc.2 || res.2))
        ((revealFuel fuel g (row + d0.1) (col + d0.2)).1,
          b || (revealFuel fuel g (row + d0.1) (col + d0.2)).2) ds)
    set out0 := revealFuel fuel g (row + d0.1) (col + d0.2) with hout0
    have hgood1 : GoodB out0.1 := H0.frame.goodBOf hgood
    have hrect1 : Rect out0.1 := H0.frame.rectOf hrect
    have hfuel1 : countUnrevealed out0.1 < fuel := lt_of_le_of_lt H0.unrev hfuel
    have hsafe1 : ∀ d ∈ ds, MineSafe out0.1 (row + d.1) (col + d.2) :=
      fun d hd => H0.frame.mineSafeOf (hsafe d (by simp [hd]))
    have Ht := ihl out0.1 (b || out0.2) hgood1 hrect1 hfuel1 hsafe1
    refine { frame := frameOK_trans H0.frame Ht.frame,
             lostEq := by rw [Ht.lostEq, H0.lostFalse]; simp,
             unrev := le_trans Ht.unrev H0.unrev,
             sound := ?_, closedNew := ?_, progress := ?_ }
    · intro p hp
      rcases Ht.sound p hp with hrev1 | ⟨d, hd, hreach⟩
      · rcases H0.sound p hrev1 with hrev | hreach0
        · exact Or.inl hrev
        · exact Or.inr ⟨d0, by simp, hreach0⟩
      · exact Or.inr ⟨d, by simp [hd], H0.frame.reachOf hreach⟩
    · intro p hp hnew hz q hadj hq1 hq2 hflagq
      by_cases hp1 : isRevealedAt out0.1 p.1 p.2 = true
      · have := H0.closedNew p hp1 hnew hz q hadj hq1 hq2 hflagq
        exact Ht.frame.revMono q.1 q.2 this
      · have hp1' : isRevealedAt out0.1 p.1 p.2 = false := bool_eq_false_of_ne hp1
        have hz1 : zeroCell out0.1 p :=
          ⟨(H0.frame.mineEq p.1 p.2).trans hz.1, (H0.frame.numEq p.1 p.2).trans hz.2⟩
        exact Ht.closedNew p hp hp1' hz1 q hadj
          (by rw [H0.frame.rowsEq]; exact hq1)
          (by rw [H0.frame.colsEq]; exact hq2)
          ((H0.frame.flagEq q.1 q.2).trans hflagq)
    · intro d hd h1 h2 h3 h4 hflagq
      rcases List.mem_cons.mp hd with rfl | hmem
      · by_cases hrev : isRevealedAt g (row + d.1).toNat (col + d.2).toNat = true
        · exact Ht.frame.revMono _ _ (H0.frame.revMono _ _ hrev)
        · have hok : okCell g ((row + d.1).toNat, (col + d.2).toNat) :=
            ⟨by omega, by omega, bool_eq_false_of_ne hrev, hflagq⟩
          exact Ht.frame.revMono _ _ (H0.progress h1 h3 hok)
      · exact Ht.progress d hmem h1
          (by rw [H0.frame.rowsEq]; exact h2) h3
          (by rw [H0.frame.colsEq]; exact h4)
          (by rw [H0.frame.flagEq]; exact hflagq)

theorem revealFuel_spec : ∀ (fuel : Nat) (g : Board) (row col : Int),
    GoodB g → Rect g → countUnrevealed g < fuel → MineSafe g row col →
    RSpec g row col (revealFuel fuel g row col) := by
  intro fuel
  induction fuel with
  | zero =>
    intro g row col _ _ hfuel _
    exact absurd hfuel (by omega)
  | succ fuel ih =>
    intro g row col hgood hrect hfuel hsafe
    rw [revealFuel_succ]
    by_cases hguard : row < 0 ∨ (rowsOf g : Int) ≤ row ∨ col < 0 ∨
        (colsOf g : Int) ≤ col ∨ isRevealedAt g row.toNat col.toNat = true ∨
        isFlaggedAt g row.toNat col.toNat = true
    · rw [if_pos hguard]
      refine { frame := frameOK_refl g, lostFalse := rfl, unrev := le_refl _,
               sound := fun p hp => Or.inl hp, closedNew := ?_, progress := ?_ }
      · intro p hp hnp
        rw [hnp] at hp
        simp at hp
      · intro hr0 hc0 hok
        exfalso
        obtain ⟨hb1, hb2, hrev, hflag⟩ := hok
        rcases hguard with h | h | h | h | h | h
        · omega
        · simp only [] at hb1
          omega
        · omega
        · simp only [] at hb2
          omega
        · rw [hrev] at h
          exact absurd h (by simp)
        · rw [hflag] at h
          exact absurd h (by simp)
    · rw [if_neg hguard]
      push_neg at hguard
      obtain ⟨hr0, hr1, hc0, hc1, hrev, hflag⟩ := hguard
      have hr0' : (0 : Int) ≤ row := by omega
      have hc0' : (0 : Int) ≤ col := by omega
      have hrev' : isRevealedAt g row.toNat col.toNat = false :=
        bool_eq_false_of_ne hrev
      have hflag' : isFlaggedAt g row.toNat col.toNat = false :=
        bool_eq_false_of_ne hflag
      have hrn : row.toNat < rowsOf g := by omega
      have hcn : col.toNat < colsOf g := by omega
      obtain ⟨cell, hcell⟩ := getCell_isSome hrect hrn hcn
      have hcellrev : cell.isRevealed = false := by
        unfold isRevealedAt at hrev'
        rw [hcell] at hrev'
        simpa using hrev'
      set g1 := modifyCell g row.toNat col.toNat fun cell =>
        { cell with isRevealed := true } with hg1
      have hframe1 : FrameOK g g1 := frameOK_mark hcell hcellrev
      have hmine : isMineAt g row.toNat col.toNat = false :=
        hsafe hr0' (by omega) hc0' (by omega)
      have hmine1 : isMineAt g1 row.toNat col.toNat = false := by
        rw [hframe1.mineEq]
        exact hmine
      rw [if_neg (by rw [hmine1]; simp)]
      have hrevg1 : isRevealedAt g1 row.toNat col.toNat = true := by
        unfold isRevealedAt
        rw [hg1, getCell_modifyCell_self, hcell]
        rfl
      have hcount1 : countUnrevealed g1 + 1 = countUnrevealed g :=
        countUnrevealed_mark g _ _ cell hcell hcellrev
      have hokstart : okCell g (row.toNat, col.toNat) := ⟨hrn, hcn, hrev', hflag'⟩
      by_cases hnum : numAt g1 row.toNat col.toNat = 0
      · rw [if_pos hnum]
        have hnumg : numAt g row.toNat col.toNat = 0 := by
          rw [← hframe1.numEq]
          exact hnum
        have hzg : zeroCell g (row.toNat, col.toNat) := ⟨hmine, hnumg⟩
        have hgood1 : GoodB g1 := hframe1.goodBOf hgood
        have hrect1 : Rect g1 := hframe1.rectOf hrect
        have hfuel1 : countUnrevealed g1 < fuel := by omega
        have hsafe1 : ∀ d ∈ neighborOffsets, MineSafe g1 (row + d.1) (col + d.2) := by
          intro d hd hx1 hx2 hx3 hx4
          rw [hframe1.mineEq]
          have hadj := offset_adjacent hr0' hc0' hd
          refine hgood.noMineAdj hrn hcn hmine hnumg _ hadj ?_ ?_
          · rw [hframe1.rowsEq] at hx2
            simp only []
            omega
          · rw [hframe1.colsEq] at hx4
            simp only []
            omega
        have HS := revealSeq_spec fuel row col ih neighborOffsets g1 false
          hgood1 hrect1 hfuel1 hsafe1
        refine { frame := frameOK_trans hframe1 HS.frame,
                 lostFalse := HS.lostEq,
                 unrev := le_trans HS.unrev (by omega),
                 sound := ?_, closedNew := ?_,
                 progress := fun _ _ _ => HS.frame.revMono _ _ hrevg1 }
        · intro p hp
          rcases HS.sound p hp with hrev1 | ⟨d, hd, hreach⟩
          · by_cases hpg : isRevealedAt g p.1 p.2 = true
            · exact Or.inl hpg
            · right
              have hps : p = (row.toNat, col.toNat) :=
                mark_rev_new hrev1 (bool_eq_false_of_ne hpg)
              rw [hps]
              exact Reach.base hokstart
          · right
            have hreach' := hframe1.reachOf hreach
            have hokt : okCell g ((row + d.1).toNat, (col + d.2).toNat) :=
              hreach'.startOk
            have hadj := offset_adjacent hr0' hc0' hd
            exact Reach.chain
              (Reach.step _ _ (Reach.base hokstart) hzg hadj hokt) hreach'
        · intro p hp hnew hz q hadj hq1 hq2 hflagq
          by_cases hpg1 : isRevealedAt g1 p.1 p.2 = true
          · have hps : p = (row.toNat, col.toNat) := mark_rev_new hpg1 hnew
            rw [hps] at hadj
            obtain ⟨d, hd, e1, e2⟩ := adjacent_to_offset hadj
            have t1 : (row + d.1).toNat = q.1 := by omega
            have t2 : (col + d.2).toNat = q.2 := by omega
            have hq := HS.progress d hd (by omega)
              (by rw [hframe1.rowsEq]; omega) (by omega)
              (by rw [hframe1.colsEq]; omega)
              (by rw [t1, t2, hframe1.flagEq]; exact hflagq)
            rw [t1, t2] at hq
            exact hq
          · have hp1' : isRevealedAt g1 p.1 p.2 = false := bool_eq_false_of_ne hpg1
            have hz1 : zeroCell g1 p :=
              ⟨(hframe1.mineEq p.1 p.2).trans hz.1, (hframe1.numEq p.1 p.2).trans hz.2⟩
            exact HS.closedNew p hp hp1' hz1 q hadj
              (by rw [hframe1.rowsEq]; exact hq1)
              (by rw [hframe1.colsEq]; exact hq2)
              ((hframe1.flagEq q.1 q.2).trans hflagq)
      · rw [if_neg hnum]
        refine { frame := hframe1, lostFalse := rfl,
                 unrev := by show countUnrevealed g1 ≤ countUnrevealed g; omega,
                 sound := ?_, closedNew := ?_,
                 progress := fun _ _ _ => hrevg1 }
        · intro p hp
          by_cases hpg : isRevealedAt g p.1 p.2 = true
          · exact Or.inl hpg
          · right
            have hps : p = (row.toNat, col.toNat) :=
              mark_rev_new hp (bool_eq_false_of_ne hpg)
            rw [hps]
            exact Reach.base hokstart
        · intro p hp hnew hz q hadj hq1 hq2 hflagq
          exfalso
          have hps : p = (row.toNat, col.toNat) := mark_rev_new hp hnew
          apply hnum
          rw [hps] at hz
          exact (hframe1.numEq _ _).trans hz.2

theorem Reach.elemOk {g : Board} {s p : Nat × Nat} (h : Reach g s p) :
    okCell g p := by
  induction h with
  | base hok => exact hok
  | step q q' _ _ _ hok _ => exact hok

theorem reveal_complete {g : Board} {row col : Int} {fuel : Nat}
    (hgood : GoodB g) (hrect : Rect g) (hfuel : countUnrevealed g < fuel)
    (hsafe : MineSafe g row col) (hr0 : 0 ≤ row) (hc0 : 0 ≤ col) :
    ∀ p, Reach g (row.toNat, col.toNat) p →
      isRevealedAt (revealFuel fuel g row col).1 p.1 p.2 = true := by
  have H := revealFuel_spec fuel g row col hgood hrect hfuel hsafe
  intro p hp
  induction hp with
  | base hok => exact H.progress hr0 hc0 hok
  | step q q' hq hzq hadj hok ih =>
    have hqok : okCell g q := hq.elemOk
    exact H.closedNew q ih hqok.2.2.1 hzq q' hadj hok.1 hok.2.1 hok.2.2.2

theorem getCell_bounds {g : Board} {r c : Nat} {cell : Cell} (hrect : Rect g)
    (h : getCell g r c = some cell) : r < rowsOf g ∧ c < colsOf g := by
  unfold getCell at h
  cases hg : g.get? r with
  | none =>
    rw [hg] at h
    simp at h
  | some rowL =>
    rw [hg] at h
    have h' : rowL.get? c = some cell := h
    have hr : r < g.length := by
      by_contra hx
      rw [List.get?_eq_none.mpr (by omega)] at hg
      simp at hg
    have hlen := hrect r hr
    rw [hg] at hlen
    simp at hlen
    have hc : c < rowL.length := by
      by_contra hx
      rw [List.get?_eq_none.mpr (by omega)] at h'
      simp at h'
    exact ⟨hr, by omega⟩

theorem boardCount_eq_zero {pc : Cell → Bool} : ∀ {g : Board},
    (∀ r c cell, getCell g r c = some cell → pc cell = false) →
    boardCount pc g = 0 := by
  intro g
  induction g with
  | nil => intro _; rfl
  | cons rowL rows ih =>
    intro h
    rw [boardCount_cons]
    have h1 : rowL.countP pc = 0 := by
      rw [List.countP_eq_zero]
      intro a ha
      obtain ⟨n, hn⟩ := List.get?_of_mem ha
      have hc := h 0 n a hn
      simp [hc]
    have h2 := ih fun r c cell hc => h (r + 1) c cell hc
    omega

theorem countMinesB_zero {g : Board} (hrect : Rect g) (hmf : MineFree g) :
    countMinesB g = 0 := by
  apply boardCount_eq_zero
  intro r c cell hc
  obtain ⟨hr, hcc⟩ := getCell_bounds hrect hc
  have := hmf r hr c hcc
  unfold isMineAt at this
  rw [hc] at this
  simpa using this

theorem placeMinesLoop_eq (cfg : GameConfig) (fr fc : Nat)
    (draws : List (Nat × Nat)) (g : Board) (placed : Nat) :
    placeMinesLoop cfg fr fc draws g placed =
      if placed < cfg.mines then
        match draws with
        | [] => none
        | (r, c) :: rest =>
          if isMineAt g r c = false ∧ inExclusion r c fr fc = false then
            placeMinesLoop cfg fr fc rest
              (modifyCell g r c fun cell => { cell with isMine := true })
              (placed + 1)
          else
            placeMinesLoop cfg fr fc rest g placed
      else
        some g := by
  rw [placeMinesLoop.eq_def]

theorem placeMinesLoop_spec (cfg : GameConfig) (fr fc : Nat) :
    ∀ (draws : List (Nat × Nat)) (g : Board) (placed : Nat) (g' : Board),
    (∀ d ∈ draws, d.1 < cfg.rows ∧ d.2 < cfg.cols) →
    rowsOf g = cfg.rows → colsOf g = cfg.cols → Rect g →
    placed ≤ cfg.mines →
    placeMinesLoop cfg fr fc draws g placed = some g' →
    countMinesB g' + placed = countMinesB g + cfg.mines ∧
    (∀ r c, isMineAt g' r c = true → isMineAt g r c = true ∨
      inExclusion r c fr fc = false) ∧
    g'.map List.length = g.map List.length ∧
    (∀ r c, getCell g' r c = getCell g r c ∨
      ∃ cell, getCell g r c = some cell ∧
        getCell g' r c = some { cell with isMine := true }) := by
  intro draws
  induction draws with
  | nil =>
    intro g placed g' _ hrows hcols hrect hple hrun
    rw [placeMinesLoop_eq] at hrun
    by_cases hlt : placed < cfg.mines
    · rw [if_pos hlt] at hrun
      simp at hrun
    · rw [if_neg hlt] at hrun
      have hg : g = g' := by simpa using hrun
      subst hg
      refine ⟨by omega, fun r c hm => Or.inl hm, rfl, fun r c => Or.inl rfl⟩
  | cons d rest ih =>
    intro g placed g' hdraws hrows hcols hrect hple hrun
    obtain ⟨dr, dc⟩ := d
    have hdm := hdraws (dr, dc) (by simp)
    rw [placeMinesLoop_eq] at hrun
    by_cases hlt : placed < cfg.mines
    · rw [if_pos hlt] at hrun
      have hrun2 : (if isMineAt g dr dc = false ∧ inExclusion dr dc fr fc = false
          then placeMinesLoop cfg fr fc rest
            (modifyCell g dr dc fun cell => { cell with isMine := true })
            (placed + 1)
          else placeMinesLoop cfg fr fc rest g placed) = some g' := hrun
      clear hrun
      by_cases hcond : isMineAt g dr dc = false ∧ inExclusion dr dc fr fc = false
      · rw [if_pos hcond] at hrun2
        set g2 := modifyCell g dr dc fun cell => { cell with isMine := true }
          with hg2
        have hmaplen : g2.map List.length = g.map List.length :=
          map_length_modifyCell g dr dc _
        have hrows2 : rowsOf g2 = cfg.rows := by
          rw [rowsOf_eq_of_map_length hmaplen, hrows]
        have hcols2 : colsOf g2 = cfg.cols := by
          rw [colsOf_eq_of_map_length hmaplen, hcols]
        have hrect2 : Rect g2 := rect_of_map_length hmaplen hrect
        obtain ⟨cell, hcell⟩ := getCell_isSome hrect (by omega) (by omega)
          (r := dr) (c := dc)
        have hcellmine : cell.isMine = false := by
          have := hcond.1
          unfold isMineAt at this
          rw [hcell] at this
          simpa using this
        have IH := ih g2 (placed + 1) g' (fun d hd => hdraws d (by simp [hd]))
          hrows2 hcols2 hrect2 (by omega) hrun2
        have hcnt : countMinesB g2 = countMinesB g + 1 := by
          have H := boardCount_modifyCell (fun cell => cell.isMine) g dr dc
            (fun cell => { cell with isMine := true }) cell hcell
          rw [← hg2] at H
          simp [hcellmine] at H
          unfold countMinesB
          omega
        refine ⟨by omega, ?_, hmaplen.symm ▸ IH.2.2.1, ?_⟩
        · intro r c hm
          rcases IH.2.1 r c hm with hm2 | hex
          · by_cases hrc : r = dr ∧ c = dc
            · exact Or.inr (hrc.1 ▸ hrc.2 ▸ hcond.2)
            · left
              unfold isMineAt at hm2 ⊢
              rw [getCell_modifyCell_ne g dr dc _ r c hrc] at hm2
              exact hm2
          · exact Or.inr hex
        · intro r c
          rcases IH.2.2.2 r c with he | ⟨cell2, hc2, hc2'⟩
          · by_cases hrc : r = dr ∧ c = dc
            · obtain ⟨rfl, rfl⟩ := hrc
              right
              refine ⟨cell, hcell, ?_⟩
              rw [he, hg2, getCell_modifyCell_self, hcell]
              rfl
            · left
              rw [he, hg2, getCell_modifyCell_ne g dr dc _ r c hrc]
          · by_cases hrc : r = dr ∧ c = dc
            · obtain ⟨rfl, rfl⟩ := hrc
              right
              rw [hg2, getCell_modifyCell_self, hcell] at hc2
              have hc2x : cell2 = { cell with isMine := true } := by
                simpa using hc2.symm
              refine ⟨cell, hcell, ?_⟩
              rw [hc2', hc2x]
            · right
              rw [hg2, getCell_modifyCell_ne g dr dc _ r c hrc] at hc2
              exact ⟨cell2, hc2, hc2'⟩
      · rw [if_neg hcond] at hrun2
        exact ih g placed g' (fun d hd => hdraws d (by simp [hd]))
          hrows hcols hrect hple hrun2
    · rw [if_neg hlt] at hrun
      have hg : g = g' := by simpa using hrun
      subst hg
      refine ⟨by omega, fun r c hm => Or.inl hm, rfl, fun r c => Or.inl rfl⟩

theorem getCell_computeNumbers (cfg : GameConfig) (g : Board) (r c : Nat) :
    getCell (computeNumbers cfg g) r c =
      if r < cfg.rows ∧ c < cfg.cols then
        some (if ((getCell g r c).getD blankCell).isMine = true then
            (getCell g r c).getD blankCell
          else { (getCell g r c).getD blankCell with
            neighborMines := countAdj cfg g r c })
      else none := by
  have step1 : getCell (computeNumbers cfg g) r c =
      ((computeNumbers cfg g).get? r).bind fun rowL => rowL.get? c := rfl
  rw [step1]
  unfold computeNumbers
  rw [List.get?_map]
  by_cases hr : r < cfg.rows
  · rw [List.get?_range hr, Option.map_some', Option.some_bind, List.get?_map]
    by_cases hc : c < cfg.cols
    · rw [List.get?_range hc, Option.map_some', if_pos (And.intro hr hc)]
    · have hnone : (List.range cfg.cols).get? c = none :=
        List.get?_eq_none.mpr (by rw [List.length_range]; omega)
      rw [hnone, if_neg (fun hx => hc hx.2)]
      rfl
  · have hnone : (List.range cfg.rows).get? r = none :=
      List.get?_eq_none.mpr (by rw [List.length_range]; omega)
    rw [hnone, if_neg (fun hx => hr hx.1)]
    rfl

theorem rowsOf_computeNumbers (cfg : GameConfig) (g : Board) :
    rowsOf (computeNumbers cfg g) = cfg.rows := by
  unfold rowsOf computeNumbers
  rw [List.length_map, List.length_range]

theorem colsOf_eq_get? (g : Board) : colsOf g = ((g.get? 0).getD []).length := by
  unfold colsOf
  rw [← List.get?_zero]

theorem colsOf_computeNumbers (cfg : GameConfig) (g : Board) (h : 0 < cfg.rows) :
    colsOf (computeNumbers cfg g) = cfg.cols := by
  rw [colsOf_eq_get?]
  unfold computeNumbers
  rw [List.get?_map, List.get?_range h, Option.map_some']
  simp [List.length_map, List.length_range]

theorem rect_computeNumbers (cfg : GameConfig) (g : Board) :
    Rect (computeNumbers cfg g) := by
  intro i hi
  have hi' : i < cfg.rows := by
    have h := rowsOf_computeNumbers cfg g
    unfold rowsOf at h
    omega
  rw [colsOf_computeNumbers cfg g (by omega)]
  unfold computeNumbers
  rw [List.get?_map, List.get?_range hi', Option.map_some']
  simp [List.length_map, List.length_range]

theorem isMineAt_computeNumbers (cfg : GameConfig) (g : Board) (r c : Nat)
    (hr : r < cfg.rows) (hc : c < cfg.cols) :
    isMineAt (computeNumbers cfg g) r c = isMineAt g r c := by
  unfold isMineAt
  rw [getCell_computeNumbers, if_pos ⟨hr, hc⟩]
  cases hg : getCell g r c with
  | none => simp [hg, blankCell]
  | some cell =>
    simp only [hg, Option.getD_some]
    by_cases hm : cell.isMine = true
    · rw [if_pos hm]
    · rw [if_neg hm]
      simp

theorem isRevealedAt_computeNumbers (cfg : GameConfig) (g : Board) (r c : Nat)
    (hr : r < cfg.rows) (hc : c < cfg.cols) :
    isRevealedAt (computeNumbers cfg g) r c = isRevealedAt g r c := by
  unfold isRevealedAt
  rw [getCell_computeNumbers, if_pos ⟨hr, hc⟩]
  cases hg : getCell g r c with
  | none => simp [hg, blankCell]
  | some cell =>
    simp only [hg, Option.getD_some]
    by_cases hm : cell.isMine = true
    · rw [if_pos hm]
    · rw [if_neg hm]
      simp

theorem isFlaggedAt_computeNumbers (cfg : GameConfig) (g : Board) (r c : Nat)
    (hr : r < cfg.rows) (hc : c < cfg.cols) :
    isFlaggedAt (computeNumbers cfg g) r c = isFlaggedAt g r c := by
  unfold isFlaggedAt
  rw [getCell_computeNumbers, if_pos ⟨hr, hc⟩]
  cases hg : getCell g r c with
  | none => simp [hg, blankCell]
  | some cell =>
    simp only [hg, Option.getD_some]
    by_cases hm : cell.isMine = true
    · rw [if_pos hm]
    · rw [if_neg hm]
      simp

theorem numAt_computeNumbers (cfg : GameConfig) (g : Board) (r c : Nat)
    (hr : r < cfg.rows) (hc : c < cfg.cols) (hm : isMineAt g r c = false) :
    numAt (computeNumbers cfg g) r c = countAdj cfg g r c := by
  unfold numAt
  rw [getCell_computeNumbers, if_pos ⟨hr, hc⟩]
  cases hg : getCell g r c with
  | none => simp [hg, blankCell]
  | some cell =>
    have hcm : cell.isMine = false := by
      unfold isMineAt at hm
      rw [hg] at hm
      simpa using hm
    simp only [hg, Option.getD_some, hcm]
    simp

theorem countAdj_congr (cfg : GameConfig) (g g' : Board)
    (h : ∀ r c, r < cfg.rows → c < cfg.cols → isMineAt g' r c = isMineAt g r c)
    (r c : Nat) : countAdj cfg g' r c = countAdj cfg g r c := by
  unfold countAdj
  apply congrArg List.length
  apply List.filter_congr
  intro d _
  rw [decide_eq_decide]
  by_cases hb : 0 ≤ (r : Int) + d.1 ∧ (r : Int) + d.1 < (cfg.rows : Int) ∧
      0 ≤ (c : Int) + d.2 ∧ (c : Int) + d.2 < (cfg.cols : Int)
  · have hx := h ((r : Int) + d.1).toNat ((c : Int) + d.2).toNat
      (by omega) (by omega)
    rw [hx]
  · constructor <;> intro hx <;>
      exact absurd ⟨hx.1, hx.2.1, hx.2.2.1, hx.2.2.2.1⟩ hb

theorem adjCountG_eq_countAdj (cfg : GameConfig) (g : Board)
    (hr : rowsOf g = cfg.rows) (hc : colsOf g = cfg.cols) (r c : Nat) :
    adjCountG g r c = countAdj cfg g r c := by
  unfold adjCountG countAdj
  rw [hr, hc]

theorem map_length_computeNumbers (cfg : GameConfig) (g : Board) :
    (computeNumbers cfg g).map List.length =
      List.replicate cfg.rows cfg.cols := by
  rw [List.eq_replicate]
  constructor
  · unfold computeNumbers
    rw [List.length_map, List.length_map, List.length_range]
  · intro b hb
    rw [List.mem_map] at hb
    obtain ⟨rowL, hrow, hlen⟩ := hb
    unfold computeNumbers at hrow
    rw [List.mem_map] at hrow
    obtain ⟨r, _, hr⟩ := hrow
    rw [← hlen, ← hr, List.length_map, List.length_range]

theorem map_length_eq_replicate {g : Board} {R C : Nat} (hrows : rowsOf g = R)
    (hcols : colsOf g = C) (hrect : Rect g) :
    g.map List.length = List.replicate R C := by
  rw [List.eq_replicate]
  constructor
  · rw [List.length_map]
    exact hrows
  · intro b hb
    rw [List.mem_map] at hb
    obtain ⟨rowL, hrow, hlen⟩ := hb
    obtain ⟨n, hn⟩ := List.get?_of_mem hrow
    have hnlen : n < g.length := by
      by_contra hx
      rw [List.get?_eq_none.mpr (by omega)] at hn
      simp at hn
    have := hrect n hnlen
    rw [hn] at this
    simp at this
    rw [← hlen, this, hcols]

theorem placeMines_elim {cfg : GameConfig} {draws : List (Nat × Nat)} {g : Board}
    {fr fc : Nat} {pg : Board} (h : placeMines cfg draws g fr fc = some pg) :
    ∃ gm, placeMinesLoop cfg fr fc draws g 0 = some gm ∧
      pg = computeNumbers cfg gm := by
  unfold placeMines at h
  cases hl : placeMinesLoop cfg fr fc draws g 0 with
  | none =>
    rw [hl] at h
    simp at h
  | some gm =>
    rw [hl] at h
    simp at h
    exact ⟨gm, rfl, h.symm⟩

theorem placeMines_dims {cfg : GameConfig} {draws : List (Nat × Nat)} {g : Board}
    {fr fc : Nat} {pg : Board} (h : placeMines cfg draws g fr fc = some pg)
    (hrows0 : 0 < cfg.rows) :
    rowsOf pg = cfg.rows ∧ colsOf pg = cfg.cols ∧ Rect pg := by
  obtain ⟨gm, _, rfl⟩ := placeMines_elim h
  exact ⟨rowsOf_computeNumbers cfg gm, colsOf_computeNumbers cfg gm hrows0,
    rect_computeNumbers cfg gm⟩

theorem placeMines_goodB {cfg : GameConfig} {draws : List (Nat × Nat)} {g : Board}
    {fr fc : Nat} {pg : Board} (h : placeMines cfg draws g fr fc = some pg)
    (hrows0 : 0 < cfg.rows) : GoodB pg := by
  obtain ⟨gm, hloop, rfl⟩ := placeMines_elim h
  intro r hr c hc hm
  rw [rowsOf_computeNumbers] at hr
  rw [colsOf_computeNumbers cfg gm hrows0] at hc
  have hmg : isMineAt gm r c = false := by
    rw [← isMineAt_computeNumbers cfg gm r c hr hc]
    exact hm
  rw [numAt_computeNumbers cfg gm r c hr hc hmg,
    adjCountG_eq_countAdj cfg _ (rowsOf_computeNumbers cfg gm)
      (colsOf_computeNumbers cfg gm hrows0)]
  exact (countAdj_congr cfg gm (computeNumbers cfg gm)
    (fun r' c' hr' hc' => isMineAt_computeNumbers cfg gm r' c' hr' hc') r c).symm

theorem placeMines_spec {cfg : GameConfig} {draws : List (Nat × Nat)} {g : Board}
    {fr fc : Nat} {pg : Board}
    (hdraws : ∀ d ∈ draws, d.1 < cfg.rows ∧ d.2 < cfg.cols)
    (hrows : rowsOf g = cfg.rows) (hcols : colsOf g = cfg.cols) (hrect : Rect g)
    (hmf : MineFree g)
    (h : placeMines cfg draws g fr fc = some pg) :
    countMinesB pg = cfg.mines ∧
    (∀ r c : Nat, ((r : Int) - fr).natAbs ≤ 1 → ((c : Int) - fc).natAbs ≤ 1 →
      isMineAt pg r c = false) := by
  obtain ⟨gm, hloop, rfl⟩ := placeMines_elim h
  obtain ⟨hcnt, hexcl, hlen, hpt⟩ := placeMinesLoop_spec cfg fr fc draws g 0 gm
    hdraws hrows hcols hrect (by omega) hloop
  have hz : countMinesB g = 0 := countMinesB_zero hrect hmf
  have hrowsm : rowsOf gm = cfg.rows := by
    rw [rowsOf_eq_of_map_length hlen, hrows]
  have hcolsm : colsOf gm = cfg.cols := by
    rw [colsOf_eq_of_map_length hlen, hcols]
  have hrectm : Rect gm := rect_of_map_length hlen hrect
  have hgmfree : ∀ r c : Nat, ((r : Int) - fr).natAbs ≤ 1 →
      ((c : Int) - fc).natAbs ≤ 1 → isMineAt gm r c = false := by
    intro r c h1 h2
    cases hx : isMineAt gm r c
    · rfl
    · exfalso
      rcases hexcl r c hx with hmg | hex
      · unfold isMineAt at hmg
        cases hgc : getCell g r c with
        | none =>
          rw [hgc] at hmg
          simp at hmg
        | some cell =>
          obtain ⟨hr', hc'⟩ := getCell_bounds hrect hgc
          have hmf' := hmf r hr' c hc'
          unfold isMineAt at hmf'
          rw [hgc] at hmg hmf'
          simp at hmg hmf'
          rw [hmf'] at hmg
          exact absurd hmg (by simp)
      · unfold inExclusion at hex
        simp at hex
        omega
  constructor
  · have hP : ∀ r c a b, getCell gm r c = some a →
        getCell (computeNumbers cfg gm) r c = some b →
        a.isMine = b.isMine := by
      intro r c a b ha hb
      obtain ⟨hr, hc⟩ := getCell_bounds hrectm ha
      rw [hrowsm] at hr
      rw [hcolsm] at hc
      have hg := getCell_computeNumbers cfg gm r c
      rw [if_pos (And.intro hr hc), ha] at hg
      rw [hg] at hb
      simp only [Option.getD_some] at hb
      have hx := Option.some.inj hb
      split at hx
      · rw [← hx]
      · rw [← hx]
    have hL : (computeNumbers cfg gm).map List.length = gm.map List.length := by
      rw [map_length_computeNumbers, map_length_eq_replicate hrowsm hcolsm hrectm]
    have hcc := boardCount_congr (fun cell => cell.isMine) (fun cell => cell.isMine)
      gm (computeNumbers cfg gm) hL hP
    unfold countMinesB at *
    omega
  · intro r c h1 h2
    by_cases hb : r < cfg.rows ∧ c < cfg.cols
    · rw [isMineAt_computeNumbers cfg gm r c hb.1 hb.2]
      exact hgmfree r c h1 h2
    · unfold isMineAt
      rw [getCell_computeNumbers, if_neg hb]
      rfl

theorem placeMines_fields {cfg : GameConfig} {draws : List (Nat × Nat)} {g : Board}
    {fr fc : Nat} {pg : Board}
    (hdraws : ∀ d ∈ draws, d.1 < cfg.rows ∧ d.2 < cfg.cols)
    (hrows : rowsOf g = cfg.rows) (hcols : colsOf g = cfg.cols) (hrect : Rect g)
    (h : placeMines cfg draws g fr fc = some pg) :
    ∀ r c, r < cfg.rows → c < cfg.cols →
      isRevealedAt pg r c = isRevealedAt g r c ∧
      isFlaggedAt pg r c = isFlaggedAt g r c := by
  obtain ⟨gm, hloop, rfl⟩ := placeMines_elim h
  obtain ⟨_, _, hlen, hpt⟩ := placeMinesLoop_spec cfg fr fc draws g 0 gm
    hdraws hrows hcols hrect (by omega) hloop
  intro r c hr hc
  have hfields : isRevealedAt gm r c = isRevealedAt g r c ∧
      isFlaggedAt gm r c = isFlaggedAt g r c := by
    rcases hpt r c with he | ⟨cell, hcg, hcg'⟩
    · unfold isRevealedAt isFlaggedAt
      rw [he]
      exact ⟨rfl, rfl⟩
    · unfold isRevealedAt isFlaggedAt
      rw [hcg, hcg']
      exact ⟨rfl, rfl⟩
  exact ⟨(isRevealedAt_computeNumbers cfg gm r c hr hc).trans hfields.1,
    (isFlaggedAt_computeNumbers cfg gm r c hr hc).trans hfields.2⟩

theorem placeMines_anchor {cfg : GameConfig} {draws : List (Nat × Nat)} {g : Board}
    {fr fc : Nat} {pg : Board}
    (hdraws : ∀ d ∈ draws, d.1 < cfg.rows ∧ d.2 < cfg.cols)
    (hrows : rowsOf g = cfg.rows) (hcols : colsOf g = cfg.cols) (hrect : Rect g)
    (hmf : MineFree g) (hfr : fr < cfg.rows) (hfc : fc < cfg.cols)
    (h : placeMines cfg draws g fr fc = some pg) :
    isMineAt pg fr fc = false ∧ numAt pg fr fc = 0 := by
  obtain ⟨gm, hloop, hpgeq⟩ := placeMines_elim h
  obtain ⟨_, hexcl, hlen, _⟩ := placeMinesLoop_spec cfg fr fc draws g 0 gm
    hdraws hrows hcols hrect (by omega) hloop
  have hnm : ∀ r c : Nat, ((r : Int) - fr).natAbs ≤ 1 →
      ((c : Int) - fc).natAbs ≤ 1 → isMineAt gm r c = false := by
    intro r c h1 h2
    cases hx : isMineAt gm r c
    · rfl
    · exfalso
      rcases hexcl r c hx with hmg | hex
      · unfold isMineAt at hmg
        cases hgc : getCell g r c with
        | none =>
          rw [hgc] at hmg
          simp at hmg
        | some cell =>
          obtain ⟨hr', hc'⟩ := getCell_bounds hrect hgc
          have hmf' := hmf r hr' c hc'
          unfold isMineAt at hmf'
          rw [hgc] at hmg hmf'
          simp at hmg hmf'
          rw [hmf'] at hmg
          exact absurd hmg (by simp)
      · unfold inExclusion at hex
        simp at hex
        omega
  have hanchor : isMineAt gm fr fc = false := hnm fr fc (by omega) (by omega)
  subst hpgeq
  refine ⟨by rw [isMineAt_computeNumbers cfg gm fr fc hfr hfc]; exact hanchor, ?_⟩
  rw [numAt_computeNumbers cfg gm fr fc hfr hfc hanchor]
  unfold countAdj
  rw [List.length_eq_zero, List.filter_eq_nil]
  intro d hd
  have hdb : -1 ≤ d.1 ∧ d.1 ≤ 1 ∧ -1 ≤ d.2 ∧ d.2 ≤ 1 := by
    simp only [neighborOffsets, List.mem_cons, List.not_mem_nil, or_false] at hd
    rcases hd with h | h | h | h | h | h | h | h | h <;> subst h <;>
      exact ⟨by decide, by decide, by decide, by decide⟩
  intro hx
  rw [decide_eq_true_eq] at hx
  obtain ⟨b1, b2, b3, b4, hmx⟩ := hx
  have hz := hnm ((fr : Int) + d.1).toNat ((fc : Int) + d.2).toNat
    (by omega) (by omega)
  rw [hz] at hmx
  exact absurd hmx (by simp)

theorem filter_offsets_drop_center (p : (Int × Int) → Bool) (h : p (0, 0) = false) :
    (neighborOffsets.filter p).length = (mooreOffsets.filter p).length := by
  cases h1 : p (-1, -1) <;> cases h2 : p (-1, 0) <;> cases h3 : p (-1, 1) <;>
  cases h4 : p (0, -1) <;> cases h5 : p (0, 1) <;> cases h6 : p (1, -1) <;>
  cases h7 : p (1, 0) <;> cases h8 : p (1, 1) <;>
    simp [neighborOffsets, mooreOffsets, List.filter_cons, h, h1, h2, h3, h4,
      h5, h6, h7, h8, -Prod.mk_zero_zero, -Prod.mk_one_one]

theorem countAdj_eq_spec (cfg : GameConfig) (g : Board) (r c : Nat)
    (hm : isMineAt g r c = false) :
    countAdj cfg g r c = specNeighborCount cfg g r c := by
  unfold countAdj specNeighborCount
  apply filter_offsets_drop_center
  simp [hm]

theorem FrameOK.countMinesEq {g g' : Board} (h : FrameOK g g') :
    countMinesB g' = countMinesB g := by
  unfold countMinesB
  apply boardCount_congr _ _ g g' h.1
  intro r c a b ha hb
  rcases h.2 r c with he | ⟨cell, hc1, hu, hc2⟩
  · rw [ha, hb] at he
    rw [Option.some.inj he]
  · rw [ha] at hc1
    rw [hb] at hc2
    rw [Option.some.inj hc1, Option.some.inj hc2]

theorem getCell_initGrid (cfg : GameConfig) (r c : Nat) (hr : r < cfg.rows)
    (hc : c < cfg.cols) :
    getCell (initGrid cfg) r c =
      some { row := r, col := c, isMine := false, isRevealed := false,
             isFlagged := false, neighborMines := 0 } := by
  have step1 : getCell (initGrid cfg) r c =
      ((initGrid cfg).get? r).bind fun rowL => rowL.get? c := rfl
  rw [step1]
  unfold initGrid
  rw [List.get?_map, List.get?_range hr, Option.map_some', Option.some_bind,
    List.get?_map, List.get?_range hc, Option.map_some']

theorem revealCell_guard_neg {g : Board} {status : GameStatus} {r c : Nat}
    (hw : status ≠ .won) (hl : status ≠ .lost)
    (hrev : isRevealedAt g r c = false) (hflag : isFlaggedAt g r c = false) :
    ¬(status = .won ∨ status = .lost ∨ isRevealedAt g r c = true ∨
      isFlaggedAt g r c = true) := by
  intro hx
  rcases hx with h | h | h | h
  · exact hw h
  · exact hl h
  · rw [hrev] at h
    exact absurd h (by simp)
  · rw [hflag] at h
    exact absurd h (by simp)

theorem revealCell_run (dif : Difficulty) (draws : List (Nat × Nat))
    (g g0 : Board) (status : GameStatus) (r c : Nat)
    (hw : status ≠ .won) (hl : status ≠ .lost)
    (hrev : isRevealedAt g r c = false) (hflag : isFlaggedAt g r c = false)
    (hpm : (if status = .idle then placeMines (DIFFICULTIES dif) draws g r c
      else some g) = some g0) :
    revealCell dif draws g status r c =
      some ((reveal g0 (r : Int) (c : Int)).1,
        if countUnrevealed (reveal g0 (r : Int) (c : Int)).1 =
            (DIFFICULTIES dif).mines then .won
        else if (reveal g0 (r : Int) (c : Int)).2 = true then .lost
        else if status = .idle then .playing else status) := by
  unfold revealCell
  rw [if_neg (revealCell_guard_neg hw hl hrev hflag), hpm, Option.some_bind]
  show (if status ≠ .lost then
      if countUnrevealed (reveal g0 (r : Int) (c : Int)).1 =
          (DIFFICULTIES dif).mines then
        some ((reveal g0 (r : Int) (c : Int)).1, GameStatus.won)
      else some ((reveal g0 (r : Int) (c : Int)).1,
        if (reveal g0 (r : Int) (c : Int)).2 = true then GameStatus.lost
        else if status = .idle then GameStatus.playing else status)
    else some ((reveal g0 (r : Int) (c : Int)).1,
      if (reveal g0 (r : Int) (c : Int)).2 = true then GameStatus.lost
      else if status = .idle then GameStatus.playing else status)) = _
  rw [if_pos hl]
  by_cases hcnt : countUnrevealed (reveal g0 (r : Int) (c : Int)).1 =
      (DIFFICULTIES dif).mines
  · rw [if_pos hcnt, if_pos hcnt]
  · rw [if_neg hcnt, if_neg hcnt]

theorem reach_not_mine {g : Board} {row col : Int} {p : Nat × Nat}
    (hgood : GoodB g) (hsafe : MineSafe g row col)
    (hr0 : 0 ≤ row) (hc0 : 0 ≤ col)
    (h : Reach g (row.toNat, col.toNat) p) : isMineAt g p.1 p.2 = false := by
  induction h with
  | base hok =>
    have hb1 : row.toNat < rowsOf g := hok.1
    have hb2 : col.toNat < colsOf g := hok.2.1
    exact hsafe hr0 (by omega) hc0 (by omega)
  | step q q' hq hz hadj hok ih =>
    have hqok : okCell g q := hq.elemOk
    exact hgood.noMineAdj hqok.1 hqok.2.1 hz.1 hz.2 q' hadj hok.1 hok.2.1

/-- C1: on the boards placeMines is actually invoked on (a mine-free grid
of the configured dimensions), with in-range random draws, a successful
run of placeMines yields a board with exactly the configured number of
mine cells, none of which lies in the 3x3 exclusion zone centered on the
anchor (firstRow, firstCol). -/
theorem C1_placeMines_exact_count_and_exclusion
    (dif : Difficulty) (draws : List (Nat × Nat)) (g : Board) (fr fc : Nat)
    (pg : Board)
    (hdraws : ∀ d ∈ draws, d.1 < (DIFFICULTIES dif).rows ∧
      d.2 < (DIFFICULTIES dif).cols)
    (hrows : rowsOf g = (DIFFICULTIES dif).rows)
    (hcols : colsOf g = (DIFFICULTIES dif).cols)
    (hrect : Rect g) (hmf : MineFree g)
    (h : placeMines (DIFFICULTIES dif) draws g fr fc = some pg) :
    countMinesB pg = (DIFFICULTIES dif).mines ∧
    ∀ r c : Nat, ((r : Int) - fr).natAbs ≤ 1 → ((c : Int) - fc).natAbs ≤ 1 →
      isMineAt pg r c = false :=
  placeMines_spec hdraws hrows hcols hrect hmf h

theorem C1_witness : countMinesB pmW = 10 :=
  (C1_placeMines_exact_count_and_exclusion .Beginner drawsW
    (initGrid (DIFFICULTIES .Beginner)) 0 0 pmW (by decide) (by decide)
    (by decide) (by decide) (by decide) (by decide)).1

/-- C2: after placeMines returns, every non-mine cell's neighborMines
field equals the exact number of mine cells among its up-to-8 Moore
neighbors, clipped at the board edges (the spec-side count ranges over
the eight proper neighbor offsets only). -/
theorem C2_neighborMines_correct (dif : Difficulty) (draws : List (Nat × Nat))
    (g : Board) (fr fc : Nat) (pg : Board)
    (h : placeMines (DIFFICULTIES dif) draws g fr fc = some pg) :
    ∀ (r c : Nat) (cell : Cell), getCell pg r c = some cell →
      cell.isMine = false →
      cell.neighborMines = specNeighborCount (DIFFICULTIES dif) pg r c := by
  obtain ⟨gm, hloop, rfl⟩ := placeMines_elim h
  intro r c cell hcell hm
  set cfg := DIFFICULTIES dif with hcfg
  have hgc := getCell_computeNumbers cfg gm r c
  have hb : r < cfg.rows ∧ c < cfg.cols := by
    by_contra hx
    rw [if_neg hx] at hgc
    rw [hgc] at hcell
    simp at hcell
  rw [if_pos hb] at hgc
  rw [hgc] at hcell
  have hpgmine : isMineAt (computeNumbers cfg gm) r c = false := by
    unfold isMineAt
    rw [hgc]
    simp only [Option.map_some', Option.getD_some]
    have hx := Option.some.inj hcell
    rw [hx]
    exact hm
  have hnum : cell.neighborMines = countAdj cfg gm r c := by
    have hx := Option.some.inj hcell
    by_cases hmg : ((getCell gm r c).getD blankCell).isMine = true
    · rw [if_pos hmg] at hx
      rw [← hx] at hm
      rw [hm] at hmg
      exact absurd hmg (by simp)
    · rw [if_neg hmg] at hx
      rw [← hx]
  rw [hnum]
  have hcongr := countAdj_congr cfg gm (computeNumbers cfg gm)
    (fun r' c' hr' hc' => isMineAt_computeNumbers cfg gm r' c' hr' hc') r c
  rw [← hcongr]
  exact countAdj_eq_spec cfg (computeNumbers cfg gm) r c hpgmine

theorem C2_witness :
    ((getCell pmW 1 1).getD blankCell).neighborMines =
      specNeighborCount (DIFFICULTIES .Beginner) pmW 1 1 :=
  C2_neighborMines_correct .Beginner drawsW (initGrid (DIFFICULTIES .Beginner))
    0 0 pmW (by decide) 1 1 ((getCell pmW 1 1).getD blankCell) (by decide)
    (by decide)

/-- C3: failing input for the claim.  exB3 is a playing-state Beginner
board (10 mines, consistent counts, no zero cells) on which 61 of the
71 non-mine cells are revealed.  Clicking the unrevealed, unflagged
mine at (1,1) does reveal every mine, but because the final win check
compares the stale pre-call status (never lost at that point) and then
counts exactly 10 unrevealed cells, the last status written is won, not
lost — contradicting the claim that the win check is not applied after
a loss and that the final status is lost. -/
theorem C3_mine_click_yields_won :
    GoodB exB3 ∧ countMinesB exB3 = 10 ∧
    isMineAt exB3 1 1 = true ∧ isRevealedAt exB3 1 1 = false ∧
    isFlaggedAt exB3 1 1 = false ∧
    (revealCell .Beginner [] exB3 .playing 1 1).map (fun x => x.2) =
      some GameStatus.won ∧
    (revealCell .Beginner [] exB3 .playing 1 1).map
      (fun x => boardCount (fun cell => cell.isMine && !cell.isRevealed) x.1) =
      some 0 := by
  decide

/-- C4: counterexample to the claim as stated.  On exB3's sibling board
exB4, the cells (0,0)..(0,3) form one connected, unflagged zero-region
(ZChain), the clicked cell (0,0) is an unrevealed, unflagged zero cell,
yet after the reveal the region member (0,3) is still unrevealed: the
previously revealed zero cell (0,2) blocks the cascade. -/
theorem C4_counterexample :
    GoodB exB4 ∧ countMinesB exB4 = 10 ∧
    okCell exB4 (0, 0) ∧ isMineAt exB4 0 0 = false ∧ numAt exB4 0 0 = 0 ∧
    ZChain exB4 (0, 0) (0, 3) ∧
    isFlaggedAt exB4 0 3 = false ∧ isRevealedAt exB4 0 3 = false ∧
    (reveal exB4 0 0).2 = false ∧
    isRevealedAt (reveal exB4 0 0).1 0 3 = false := by
  refine ⟨by decide, by decide, by decide, by decide, by decide, ?_, by decide,
    by decide, by decide, by decide⟩
  have h0 : ZChain exB4 (0, 0) (0, 0) :=
    ZChain.base (by decide) (by decide) (by decide) (by decide)
  have h1 : ZChain exB4 (0, 0) (0, 1) :=
    ZChain.step _ _ h0 (by decide) (by decide) (by decide) (by decide) (by decide)
  have h2 : ZChain exB4 (0, 0) (0, 2) :=
    ZChain.step _ _ h1 (by decide) (by decide) (by decide) (by decide) (by decide)
  exact ZChain.step _ _ h2 (by decide) (by decide) (by decide) (by decide) (by decide)

/-- C4 (amended): on a board with consistent neighbor counts, revealing
an unrevealed, unflagged, non-mine cell with neighborMines == 0 reveals
exactly the cells reachable from it through chains of adjacent,
previously-unrevealed, unflagged cells whose interior passes only
through zero-count cells (bordering numbered cells are revealed but do
not cascade), and no cell outside that set; the cascade never sets the
lost status. -/
theorem C4_cascade_reveals_reachable_set (g : Board) (r c : Nat)
    (hgood : GoodB g) (hrect : Rect g)
    (hok : okCell g (r, c)) (hm : isMineAt g r c = false)
    (h0 : numAt g r c = 0) :
    (reveal g (r : Int) (c : Int)).2 = false ∧
    ∀ p : Nat × Nat,
      (isRevealedAt (reveal g (r : Int) (c : Int)).1 p.1 p.2 = true ↔
        (isRevealedAt g p.1 p.2 = true ∨ Reach g (r, c) p)) := by
  have hsafe : MineSafe g (r : Int) (c : Int) := by
    intro _ _ _ _
    rw [Int.toNat_natCast, Int.toNat_natCast]
    exact hm
  have H := revealFuel_spec (countUnrevealed g + 1) g (r : Int) (c : Int)
    hgood hrect (by omega) hsafe
  refine ⟨H.lostFalse, ?_⟩
  intro p
  constructor
  · intro hp
    have hs := H.sound p hp
    rw [Int.toNat_natCast, Int.toNat_natCast] at hs
    exact hs
  · intro hp
    rcases hp with hp | hp
    · exact H.frame.revMono p.1 p.2 hp
    · refine reveal_complete hgood hrect (by omega) hsafe (by omega) (by omega) p ?_
      rw [Int.toNat_natCast, Int.toNat_natCast]
      exact hp

theorem C4_witness : (reveal exB4 ((0 : Nat) : Int) ((0 : Nat) : Int)).2 = false :=
  (C4_cascade_reveals_reachable_set exB4 0 0 (by decide) (by decide) (by decide)
    (by decide) (by decide)).1

/-- C5: after a reveal that does not hit a mine, the status becomes won
exactly when the number of unrevealed cells equals the configured mine
count, and the win check touches no cell state: the resulting grid is
exactly the grid the reveal produced. -/
theorem C5_win_iff_count (dif : Difficulty) (draws : List (Nat × Nat))
    (g g0 : Board) (status : GameStatus) (r c : Nat)
    (hw : status ≠ .won) (hl : status ≠ .lost)
    (hrev : isRevealedAt g r c = false) (hflag : isFlaggedAt g r c = false)
    (hpm : (if status = .idle then placeMines (DIFFICULTIES dif) draws g r c
      else some g) = some g0)
    (hnl : (reveal g0 (r : Int) (c : Int)).2 = false) :
    revealCell dif draws g status r c =
      some ((reveal g0 (r : Int) (c : Int)).1,
        if countUnrevealed (reveal g0 (r : Int) (c : Int)).1 =
            (DIFFICULTIES dif).mines then .won
        else if status = .idle then .playing else status) ∧
    ((if countUnrevealed (reveal g0 (r : Int) (c : Int)).1 =
          (DIFFICULTIES dif).mines then GameStatus.won
      else if status = .idle then GameStatus.playing else status) =
        GameStatus.won ↔
      countUnrevealed (reveal g0 (r : Int) (c : Int)).1 =
        (DIFFICULTIES dif).mines) := by
  have hrun := revealCell_run dif draws g g0 status r c hw hl hrev hflag hpm
  rw [hnl] at hrun
  constructor
  · rw [hrun]
    by_cases hcnt : countUnrevealed (reveal g0 (r : Int) (c : Int)).1 =
        (DIFFICULTIES dif).mines
    · rw [if_pos hcnt, if_pos hcnt]
    · rw [if_neg hcnt, if_neg hcnt]
      simp
  · by_cases hcnt : countUnrevealed (reveal g0 (r : Int) (c : Int)).1 =
        (DIFFICULTIES dif).mines
    · rw [if_pos hcnt]
      simp [hcnt]
    · rw [if_neg hcnt]
      constructor
      · intro hx
        exfalso
        by_cases hi : status = .idle
        · rw [if_pos hi] at hx
          exact absurd hx (by simp)
        · rw [if_neg hi] at hx
          exact hw hx
      · intro hx
        exact absurd hx hcnt

theorem C5_witness :
    revealCell .Beginner [] exB4 .playing 0 0 =
      some ((reveal exB4 ((0 : Nat) : Int) ((0 : Nat) : Int)).1,
        if countUnrevealed (reveal exB4 ((0 : Nat) : Int) ((0 : Nat) : Int)).1 =
            (DIFFICULTIES .Beginner).mines then .won
        else if (GameStatus.playing = .idle) then .playing
          else GameStatus.playing) :=
  (C5_win_iff_count .Beginner [] exB4 exB4 .playing 0 0 (by decide) (by decide)
    (by decide) (by decide) (by decide) (by decide)).1

/-- C6: a first reveal from idle on an unflagged cell of the (mine-free,
fully unrevealed) idle grid places the mines anchored at the clicked
cell — the resulting grid carries exactly the configured number of
mines, none inside the 3x3 zone around the click — and the status moves
to playing or won, never to lost. -/
theorem C6_first_reveal_safe (dif : Difficulty) (draws : List (Nat × Nat))
    (g pg : Board) (r c : Nat)
    (hdraws : ∀ d ∈ draws, d.1 < (DIFFICULTIES dif).rows ∧
      d.2 < (DIFFICULTIES dif).cols)
    (hrows : rowsOf g = (DIFFICULTIES dif).rows)
    (hcols : colsOf g = (DIFFICULTIES dif).cols)
    (hrect : Rect g) (hmf : MineFree g) (hunrev : AllUnrevealed g)
    (hr : r < (DIFFICULTIES dif).rows) (hc : c < (DIFFICULTIES dif).cols)
    (hflag : isFlaggedAt g r c = false)
    (hpm : placeMines (DIFFICULTIES dif) draws g r c = some pg) :
    ∃ g' st', revealCell dif draws g .idle r c = some (g', st') ∧
      st' ≠ .lost ∧ (st' = .playing ∨ st' = .won) ∧
      countMinesB g' = (DIFFICULTIES dif).mines ∧
      (∀ rr cc : Nat, ((rr : Int) - r).natAbs ≤ 1 →
        ((cc : Int) - c).natAbs ≤ 1 → isMineAt g' rr cc = false) := by
  have hrows0 : 0 < (DIFFICULTIES dif).rows := by omega
  obtain ⟨hprows, hpcols, hprect⟩ := placeMines_dims hpm hrows0
  have hpgood : GoodB pg := placeMines_goodB hpm hrows0
  obtain ⟨hpcnt, hpexcl⟩ := placeMines_spec hdraws hrows hcols hrect hmf hpm
  have hanchor := placeMines_anchor hdraws hrows hcols hrect hmf hr hc hpm
  have hunrev_g : isRevealedAt g r c = false := hunrev r (by omega) c (by omega)
  have hsafe : MineSafe pg (r : Int) (c : Int) := by
    intro _ _ _ _
    rw [Int.toNat_natCast, Int.toNat_natCast]
    exact hanchor.1
  have H := revealFuel_spec (countUnrevealed pg + 1) pg (r : Int) (c : Int)
    hpgood hprect (by omega) hsafe
  have hl2 : (reveal pg (r : Int) (c : Int)).2 = false := H.lostFalse
  have hrun := revealCell_run dif draws g pg .idle r c (by decide) (by decide)
    hunrev_g hflag (by rw [if_pos rfl]; exact hpm)
  have hcm : countMinesB (reveal pg (r : Int) (c : Int)).1 =
      (DIFFICULTIES dif).mines := by
    have hx : countMinesB (reveal pg (r : Int) (c : Int)).1 = countMinesB pg :=
      H.frame.countMinesEq
    rw [hx, hpcnt]
  have hex : ∀ rr cc : Nat, ((rr : Int) - r).natAbs ≤ 1 →
      ((cc : Int) - c).natAbs ≤ 1 →
      isMineAt (reveal pg (r : Int) (c : Int)).1 rr cc = false := by
    intro rr cc h1 h2
    have hx : isMineAt (reveal pg (r : Int) (c : Int)).1 rr cc =
        isMineAt pg rr cc := H.frame.mineEq rr cc
    rw [hx]
    exact hpexcl rr cc h1 h2
  by_cases hcnt : countUnrevealed (reveal pg (r : Int) (c : Int)).1 =
      (DIFFICULTIES dif).mines
  · refine ⟨(reveal pg (r : Int) (c : Int)).1, .won, ?_, by decide,
      Or.inr rfl, hcm, hex⟩
    rw [hrun, if_pos hcnt]
  · refine ⟨(reveal pg (r : Int) (c : Int)).1, .playing, ?_, by decide,
      Or.inl rfl, hcm, hex⟩
    rw [hrun, if_neg hcnt, hl2]
    simp

theorem C6_witness :
    ((revealCell .Beginner drawsW (initGrid (DIFFICULTIES .Beginner))
      .idle 0 0).map fun x => x.2) ≠ some GameStatus.lost := by
  obtain ⟨g', st', heq, hnl, _, _, _⟩ := C6_first_reveal_safe .Beginner drawsW
    (initGrid (DIFFICULTIES .Beginner)) pmW 0 0 (by decide) (by decide)
    (by decide) (by decide) (by decide) (by decide) (by decide) (by decide)
    (by decide) (by decide)
  rw [heq]
  simpa using hnl

/-- C7: toggleFlag is a no-op on won/lost or a revealed cell; otherwise
it flips only the target cell's isFlagged and moves the display counter
by -1 when flagging and +1 when unflagging (unclamped Int); a flagged
cell is not revealable by revealCell, and unflagging clears the flag
again. -/
theorem C7_toggleFlag_spec (g : Board) (status : GameStatus) (mc : Int)
    (r c : Nat) (dif : Difficulty) (draws : List (Nat × Nat)) :
    ((status = .won ∨ status = .lost ∨ isRevealedAt g r c = true) →
      toggleFlag g status mc r c = (g, mc)) ∧
    (status ≠ .won → status ≠ .lost → isRevealedAt g r c = false →
      ((∀ cell, getCell g r c = some cell →
          getCell (toggleFlag g status mc r c).1 r c =
            some { cell with isFlagged := !cell.isFlagged }) ∧
        (∀ r' c' : Nat, ¬(r' = r ∧ c' = c) →
          getCell (toggleFlag g status mc r c).1 r' c' = getCell g r' c') ∧
        (toggleFlag g status mc r c).2 =
          (if isFlaggedAt g r c = false then mc - 1 else mc + 1))) ∧
    (isFlaggedAt g r c = true →
      revealCell dif draws g status r c = some (g, status)) ∧
    (status ≠ .won → status ≠ .lost → isRevealedAt g r c = false →
      isFlaggedAt g r c = true →
      isFlaggedAt (toggleFlag g status mc r c).1 r c = false) := by
  refine ⟨?_, ?_, ?_, ?_⟩
  · intro hx
    unfold toggleFlag
    rw [if_pos hx]
  · intro hw hl hrev
    have hguard : ¬(status = .won ∨ status = .lost ∨
        isRevealedAt g r c = true) := by
      intro hx
      rcases hx with h | h | h
      · exact hw h
      · exact hl h
      · rw [hrev] at h
        exact absurd h (by simp)
    have heq : toggleFlag g status mc r c =
        (modifyCell g r c fun cell =>
          { cell with isFlagged := !isFlaggedAt g r c },
         if (!isFlaggedAt g r c) = true then mc - 1 else mc + 1) := by
      unfold toggleFlag
      rw [if_neg hguard]
    refine ⟨?_, ?_, ?_⟩
    · intro cell hcell
      rw [heq]
      show getCell (modifyCell g r c _) r c = _
      rw [getCell_modifyCell_self, hcell, Option.map_some']
      have hfe : isFlaggedAt g r c = cell.isFlagged := by
        unfold isFlaggedAt
        rw [hcell]
        rfl
      rw [hfe]
    · intro r' c' hne
      rw [heq]
      show getCell (modifyCell g r c _) r' c' = _
      exact getCell_modifyCell_ne g r c _ r' c' hne
    · rw [heq]
      show (if (!isFlaggedAt g r c) = true then mc - 1 else mc + 1) = _
      cases hf : isFlaggedAt g r c <;> simp [hf]
  · intro hflag
    unfold revealCell
    rw [if_pos (Or.inr (Or.inr (Or.inr hflag)))]
  · intro hw hl hrev hflag
    have hguard : ¬(status = .won ∨ status = .lost ∨
        isRevealedAt g r c = true) := by
      intro hx
      rcases hx with h | h | h
      · exact hw h
      · exact hl h
      · rw [hrev] at h
        exact absurd h (by simp)
    have heq : toggleFlag g status mc r c =
        (modifyCell g r c fun cell =>
          { cell with isFlagged := !isFlaggedAt g r c },
         if (!isFlaggedAt g r c) = true then mc - 1 else mc + 1) := by
      unfold toggleFlag
      rw [if_neg hguard]
    rw [heq]
    show isFlaggedAt (modifyCell g r c _) r c = false
    unfold isFlaggedAt
    rw [getCell_modifyCell_self]
    cases hcell : getCell g r c with
    | none =>
      unfold isFlaggedAt at hflag
      rw [hcell] at hflag
      simp at hflag
    | some cell =>
      have hcf : cell.isFlagged = true := by
        unfold isFlaggedAt at hflag
        rw [hcell] at hflag
        simpa using hflag
      simp [hflag, hcf]

theorem C7_witness :
    (toggleFlag (initGrid (DIFFICULTIES .Beginner)) GameStatus.idle 0 0 0).2 =
      -1 := by
  have H := C7_toggleFlag_spec (initGrid (DIFFICULTIES .Beginner)) .idle 0 0 0
    .Beginner []
  have h2 := (H.2.1 (by decide) (by decide) (by decide)).2.2
  rw [h2]
  decide

/-- C8: restart depends on nothing but the selected difficulty: it sets
status idle, the mine counter to the configured mine count, the timer
to 0, and a fresh rows x cols grid in which every cell is fully
default-valued (no mines placed). -/
theorem C8_restart_resets (dif : Difficulty) :
    startGame dif = (initGrid (DIFFICULTIES dif), GameStatus.idle,
      ((DIFFICULTIES dif).mines : Int), 0) ∧
    rowsOf (initGrid (DIFFICULTIES dif)) = (DIFFICULTIES dif).rows ∧
    colsOf (initGrid (DIFFICULTIES dif)) = (DIFFICULTIES dif).cols ∧
    Rect (initGrid (DIFFICULTIES dif)) ∧
    ∀ r c : Nat, r < (DIFFICULTIES dif).rows → c < (DIFFICULTIES dif).cols →
      getCell (initGrid (DIFFICULTIES dif)) r c =
        some { row := r, col := c, isMine := false, isRevealed := false,
               isFlagged := false, neighborMines := 0 } := by
  refine ⟨rfl, ?_, ?_, ?_, fun r c hr hc => getCell_initGrid _ r c hr hc⟩
  · unfold rowsOf initGrid
    rw [List.length_map, List.length_range]
  · cases dif <;> decide
  · cases dif <;> decide

theorem C8_witness :
    getCell (initGrid (DIFFICULTIES .Beginner)) 0 0 =
      some { row := 0, col := 0, isMine := false, isRevealed := false,
             isFlagged := false, neighborMines := 0 } :=
  (C8_restart_resets .Beginner).2.2.2.2 0 0 (by decide) (by decide)

/-- C9: counterexample to the claim as stated.  exG9 is a legitimate
idle grid (mine-free, fully unrevealed) with a flag at (0,1); the first
reveal at (0,0) does place the mines and start the game, but (0,1) — a
cell of the edge-clipped 3x3 block around the click — stays unrevealed
because it is flagged. -/
theorem C9_counterexample :
    isFlaggedAt exG9 0 1 = true ∧ MineFree exG9 ∧ AllUnrevealed exG9 ∧
    adjacentN (0, 0) (0, 1) ∧
    (revealCell .Beginner draws9 exG9 .idle 0 0).map (fun x => x.2) =
      some GameStatus.playing ∧
    (revealCell .Beginner draws9 exG9 .idle 0 0).map
      (fun x => isRevealedAt x.1 0 1) = some false := by
  decide

/-- C9 (amended): after the first reveal from idle, the anchor cell's
neighborMines is 0, and the cascade reveals at least every unflagged
cell of the edge-clipped 3x3 block around the click (flagged neighbors
are skipped). -/
theorem C9_first_click_cascade (dif : Difficulty) (draws : List (Nat × Nat))
    (g pg : Board) (r c : Nat)
    (hdraws : ∀ d ∈ draws, d.1 < (DIFFICULTIES dif).rows ∧
      d.2 < (DIFFICULTIES dif).cols)
    (hrows : rowsOf g = (DIFFICULTIES dif).rows)
    (hcols : colsOf g = (DIFFICULTIES dif).cols)
    (hrect : Rect g) (hmf : MineFree g) (hunrev : AllUnrevealed g)
    (hr : r < (DIFFICULTIES dif).rows) (hc : c < (DIFFICULTIES dif).cols)
    (hflag : isFlaggedAt g r c = false)
    (hpm : placeMines (DIFFICULTIES dif) draws g r c = some pg) :
    numAt pg r c = 0 ∧
    ∃ g' st', revealCell dif draws g .idle r c = some (g', st') ∧
      ∀ q : Nat × Nat, adjacentN (r, c) q → q.1 < (DIFFICULTIES dif).rows →
        q.2 < (DIFFICULTIES dif).cols → isFlaggedAt g q.1 q.2 = false →
        isRevealedAt g' q.1 q.2 = true := by
  have hrows0 : 0 < (DIFFICULTIES dif).rows := by omega
  obtain ⟨hprows, hpcols, hprect⟩ := placeMines_dims hpm hrows0
  have hpgood : GoodB pg := placeMines_goodB hpm hrows0
  have hanchor := placeMines_anchor hdraws hrows hcols hrect hmf hr hc hpm
  have hfields := placeMines_fields hdraws hrows hcols hrect hpm
  refine ⟨hanchor.2, ?_⟩
  have hunrev_g : isRevealedAt g r c = false := hunrev r (by omega) c (by omega)
  have hsafe : MineSafe pg (r : Int) (c : Int) := by
    intro _ _ _ _
    rw [Int.toNat_natCast, Int.toNat_natCast]
    exact hanchor.1
  have hrun := revealCell_run dif draws g pg .idle r c (by decide) (by decide)
    hunrev_g hflag (by rw [if_pos rfl]; exact hpm)
  refine ⟨(reveal pg (r : Int) (c : Int)).1, _, hrun, ?_⟩
  intro q hadj hq1 hq2 hflagq
  have hokp : okCell pg (r, c) := by
    refine ⟨?_, ?_, ?_, ?_⟩
    · show r < rowsOf pg
      omega
    · show c < colsOf pg
      omega
    · show isRevealedAt pg r c = false
      rw [(hfields r c hr hc).1]
      exact hunrev_g
    · show isFlaggedAt pg r c = false
      rw [(hfields r c hr hc).2]
      exact hflag
  have hokq : okCell pg q := by
    refine ⟨?_, ?_, ?_, ?_⟩
    · show q.1 < rowsOf pg
      omega
    · show q.2 < colsOf pg
      omega
    · rw [(hfields q.1 q.2 hq1 hq2).1]
      exact hunrev q.1 (by omega) q.2 (by omega)
    · rw [(hfields q.1 q.2 hq1 hq2).2]
      exact hflagq
  have hzp : zeroCell pg (r, c) := ⟨hanchor.1, hanchor.2⟩
  have hreach : Reach pg (r, c) q :=
    Reach.step _ _ (Reach.base hokp) hzp hadj hokq
  exact reveal_complete hpgood hprect (by omega) hsafe (by omega) (by omega) q
    (by rw [Int.toNat_natCast, Int.toNat_natCast]; exact hreach)

theorem C9_witness : numAt pmW 0 0 = 0 :=
  (C9_first_click_cascade .Beginner drawsW (initGrid (DIFFICULTIES .Beginner))
    pmW 0 0 (by decide) (by decide) (by decide) (by decide) (by decide)
    (by decide) (by decide) (by decide) (by decide) (by decide)).1

/-- C10: a reveal whose target is not a mine (whenever it is in bounds),
on a board with consistent neighbor counts, never calls the loss
branch: the lost flag stays false and no mine cell's revealed state
changes — the mine branch is reachable only for the directly clicked
cell. -/
theorem C10_cascade_no_mine_no_loss (g : Board) (row col : Int)
    (hgood : GoodB g) (hrect : Rect g) (hsafe : MineSafe g row col) :
    (reveal g row col).2 = false ∧
    ∀ p : Nat × Nat, isMineAt g p.1 p.2 = true →
      isRevealedAt (reveal g row col).1 p.1 p.2 = isRevealedAt g p.1 p.2 := by
  by_cases h0 : 0 ≤ row ∧ 0 ≤ col
  · have H := revealFuel_spec (countUnrevealed g + 1) g row col hgood hrect
      (by omega) hsafe
    refine ⟨H.lostFalse, ?_⟩
    intro p hp
    cases hx : isRevealedAt g p.1 p.2
    · cases hy : isRevealedAt (reveal g row col).1 p.1 p.2
      · rfl
      · exfalso
        rcases H.sound p hy with hrev | hreach
        · rw [hx] at hrev
          exact absurd hrev (by simp)
        · have hnm : isMineAt g p.1 p.2 = false :=
            reach_not_mine hgood hsafe h0.1 h0.2 hreach
          rw [hnm] at hp
          exact absurd hp (by simp)
    · have hrm : isRevealedAt (reveal g row col).1 p.1 p.2 = true :=
        H.frame.revMono p.1 p.2 hx
      rw [hrm]
  · have hguard : reveal g row col = (g, false) := by
      show revealFuel (countUnrevealed g + 1) g row col = (g, false)
      rw [revealFuel_succ]
      rw [if_pos ?_]
      rcases not_and_or.mp h0 with hx | hx
      · exact Or.inl (by omega)
      · exact Or.inr (Or.inr (Or.inl (by omega)))
    rw [hguard]
    exact ⟨rfl, fun p _ => rfl⟩

theorem C10_witness : (reveal exB3 8 0).2 = false :=
  (C10_cascade_no_mine_no_loss exB3 8 0 (by decide) (by decide)
    (by intro _ _ _ _; decide)).1
